import Mathlib

/-!
Verification development for the node.gl subsystem sources (libnodegl).

The C sources operate on `float`/`double` values; this development embeds the
arithmetic in exact fields (`ℚ` for the purely rational computations, `ℝ` where
the source calls `sqrtf`/`cbrtf`/`acosf`/`cosf`), which is the standard exact
idealization of the floating-point source. Machine integers are embedded as
`Nat`/`Int` with explicit `% 2^64` where the source relies on wrap-around.
Helper macros and routines that live outside the provided source set
(math_utils.h, drawutils) are modelled from the specification and marked as
such in their doc comments.
-/

set_option maxRecDepth 10000

namespace NodeGL

/-! ## Noise node (node_noise.c) -/

/-- Enum from node_noise.c: `NOISE_CUBIC`, `NOISE_QUINTIC`. -/
inductive NoiseFunc where
  | cubic
  | quintic
deriving DecidableEq

/-- `curve_cubic` from node_noise.c: `((6.0*t - 15.0)*t + 10.0)*t*t*t`. -/
def curve_cubic (t : ℚ) : ℚ := ((6*t - 15)*t + 10)*t*t*t

/-- `curve_quintic` from node_noise.c: `(3.0 - 2.0*t)*t*t`. -/
def curve_quintic (t : ℚ) : ℚ := (3 - 2*t)*t*t

/-- `interp_func_map` from node_noise.c: maps the enum value to the curve
function (`[NOISE_CUBIC] = curve_cubic, [NOISE_QUINTIC] = curve_quintic`). -/
def interp_func_map : NoiseFunc → ℚ → ℚ
  | .cubic => curve_cubic
  | .quintic => curve_quintic

/-- `noise_func_choices` from node_noise.c: the user-facing choice names and
the enum value each resolves to. -/
def noise_func_choices : List (String × NoiseFunc) :=
  [("cubic", .cubic), ("quintic", .quintic)]

/-- Formula documented in the `"cubic"` choice docstring of node_noise.c:
`f(t)=3t²-2t³`. -/
def docstring_cubic_formula (t : ℚ) : ℚ := 3*t^2 - 2*t^3

/-- Formula documented in the `"quintic"` choice docstring of node_noise.c:
`f(t)=6t⁵-15t⁴+10t³`. -/
def docstring_quintic_formula (t : ℚ) : ℚ := 6*t^5 - 15*t^4 + 10*t^3

/-- `hash` from node_noise.c (xorshift64s), on 64-bit words embedded as `Nat`
reduced `% 2^64`. -/
def noise_hash (x : ℕ) : ℕ :=
  let x0 := x % 2^64
  let x1 := (x0 ^^^ (x0 >>> 12)) % 2^64
  let x2 := (x1 ^^^ (x1 <<< 25)) % 2^64
  let x3 := (x2 ^^^ (x2 >>> 27)) % 2^64
  (x3 * 0x2545F4914F6CDD1D) % 2^64

/-- `rand_u64_to_f64` from node_noise.c: builds the double with exponent bits
of `1.0` and mantissa `x >> 12`, then subtracts `1.0`; the value is exactly
`(x >> 12) / 2^52`. -/
def rand_u64_to_f64 (x : ℕ) : ℚ := (((x % 2^64) >>> 12 : ℕ) : ℚ) / 2^52

/-- Modelled from the spec: `NGLI_MIX(x,y,a)` from math_utils.h (not in the
provided source set), the linear blend `x·(1-a) + y·a`. -/
def NGLI_MIX (x y a : ℚ) : ℚ := x * (1 - a) + y * a

/-- Private state of the Noise node (`struct noise`), restricted to the fields
the update path reads. `octaves` is a C `int`, embedded as `ℤ`. -/
structure NoisePriv where
  octaves : ℤ
  lacunarity : ℚ
  gain : ℚ
  seed : ℕ
  function : NoiseFunc

/-- `noise` from node_noise.c: single-octave value noise at input `v`. -/
def noise (s : NoisePriv) (v : ℚ) : ℚ :=
  let i : ℤ := ⌊v⌋
  let f : ℚ := v - i
  let x : ℕ := ((i + s.seed) % (2^64 : ℤ)).toNat
  let s0 := rand_u64_to_f64 (noise_hash x) * 2 - 1
  let s1 := rand_u64_to_f64 (noise_hash ((x + 1) % 2^64)) * 2 - 1
  let v0 := f * s0
  let v1 := (1 - f) * s1
  let t := interp_func_map s.function f
  let r := NGLI_MIX v0 v1 t
  r * 2

/-- The loop body of `noise_update` from node_noise.c, iterated `n` times over
the accumulator `(sum, max_amp, freq, amp)`. -/
def noise_loop (s : NoisePriv) (t : ℚ) : ℕ → (ℚ × ℚ × ℚ × ℚ) → (ℚ × ℚ × ℚ × ℚ)
  | 0, acc => acc
  | n+1, (sum, ma, freq, amp) =>
      noise_loop s t n (sum + noise s (t * freq) * amp, ma + amp, freq * s.lacunarity, amp * s.gain)

/-- `noise_update` from node_noise.c: fractal sum over `octaves` iterations,
starting from `sum=0, max_amp=0, freq=1, amp=1`, output `sum / max_amp`.
A non-positive `octaves` runs the loop zero times, like the C `for`. -/
def noise_update (s : NoisePriv) (t : ℚ) : ℚ :=
  let acc := noise_loop s t s.octaves.toNat (0, 0, 1, 1)
  acc.1 / acc.2.1

/-- The `max_amp` accumulated by `noise_update`'s loop. -/
def noise_max_amp (s : NoisePriv) (t : ℚ) : ℚ :=
  (noise_loop s t s.octaves.toNat (0, 0, 1, 1)).2.1

/-! ## Text shaping backend, built-in path (text.c, text.h) -/

/-- `enum char_category` from text.h. -/
inductive CharCategory where
  | none
  | space
  | linebreak
deriving DecidableEq

/-- `struct char_info` from text.h. Pixel coordinates are C `int`s (`ℤ`);
the atlas UV coordinates are floats (`ℚ`). -/
structure CharInfo where
  x : ℤ
  y : ℤ
  w : ℤ
  h : ℤ
  category : CharCategory
  atlas_uvcoords : List ℚ
deriving DecidableEq

instance : Inhabited CharInfo := ⟨⟨0, 0, 0, 0, .none, []⟩⟩

/-- Loop of `get_char_box_dim` from text.c, carried state `(w, h, cur_w, n)`. -/
def get_char_box_dim_loop : List Char → ℕ → ℕ → ℕ → ℕ → ℕ × ℕ × ℕ
  | [], w, h, _, n => (w, h, n)
  | c :: rest, w, h, cur_w, n =>
    if c = '\n' then get_char_box_dim_loop rest w (h+1) 0 n
    else get_char_box_dim_loop rest (max w (cur_w+1)) h (cur_w+1) (n+1)

/-- `get_char_box_dim` from text.c: returns `(w, h, n)` = (longest line length,
line count, non-newline character count), starting from `w=0, h=1, cur_w=0,
n=0`. -/
def get_char_box_dim (s : List Char) : ℕ × ℕ × ℕ :=
  get_char_box_dim_loop s 0 1 0 0

/-- Character-pushing loop of `ngli_text_set_string` (built-in path) from
text.c, carried `(px, py)` grid position. The `category` field of each pushed
`char_info` is left at its zero-initialized value (`NONE`), exactly as the
designated initializer in the source does. `uvfn` stands for the external
`ngli_drawutils_get_atlas_uvcoords` (drawutils module, not in the provided
source set). -/
def set_string_builtin_loop (uvfn : Char → List ℚ) (padding fontW fontH text_rows : ℤ) :
    List Char → ℤ → ℤ → List CharInfo
  | [], _, _ => []
  | c :: rest, px, py =>
    if c = '\n' then set_string_builtin_loop uvfn padding fontW fontH text_rows rest 0 (py+1)
    else { x := padding + fontW * px,
           y := padding + fontH * (text_rows - py - 1),
           w := fontW, h := fontH,
           category := .none,
           atlas_uvcoords := uvfn c }
         :: set_string_builtin_loop uvfn padding fontW fontH text_rows rest (px+1) py

/-- Result of `ngli_text_set_string`: the text block dimensions and the
produced character list. -/
structure TextState where
  width : ℤ
  height : ℤ
  chars : List CharInfo
deriving DecidableEq

/-- `ngli_text_set_string` from text.c, built-in (no font file) path:
`width = text_cols*NGLI_FONT_W + 2*padding`,
`height = text_rows*NGLI_FONT_H + 2*padding`, then one `char_info` pushed per
non-newline character. `NGLI_FONT_W`/`NGLI_FONT_H` come from the drawutils
module (not in the provided source set) and are taken as parameters. -/
def ngli_text_set_string_builtin (uvfn : Char → List ℚ)
    (padding fontW fontH : ℤ) (str : List Char) : TextState :=
  let dims := get_char_box_dim str
  let text_cols : ℤ := dims.1
  let text_rows : ℤ := dims.2.1
  { width := text_cols * fontW + 2 * padding,
    height := text_rows * fontH + 2 * padding,
    chars := set_string_builtin_loop uvfn padding fontW fontH text_rows str 0 0 }

/-- Specification-side definition: the lines of a string, split on `'\n'`
(an empty string has one empty line; a trailing newline opens a final empty
line). -/
def linesOf : List Char → List (List Char)
  | [] => [[]]
  | c :: rest =>
    if c = '\n' then [] :: linesOf rest
    else match linesOf rest with
      | [] => [[c]]
      | l :: ls => (c :: l) :: ls

/-- Maximum of a list of naturals (0 for the empty list). -/
def maxNat (l : List ℕ) : ℕ := l.foldr max 0

/-! ## Text effects: element segmentation (node_text.c) -/

/-- The `NGLI_TEXT_EFFECT_*` target enum (nodes.h, consumed by node_text.c and
node_texteffect.c). -/
inductive TextEffectTarget where
  | char
  | char_nospace
  | word
  | line
  | text
deriving DecidableEq

/-- `get_nb_chars` from node_text.c. -/
def get_nb_chars (chars : List CharInfo) : ℕ := chars.length

/-- `get_nb_chars_no_space` from node_text.c: counts the characters whose
category is not `SPACE`. -/
def get_nb_chars_no_space (chars : List CharInfo) : ℕ :=
  (chars.filter (fun c => ¬ c.category = .space)).length

/-- `struct element_info` from node_text.c; `stop` embeds the C field `end`
(exclusive), `-1` is the "not found" sentinel. -/
structure ElementInfo where
  start : ℤ
  stop : ℤ
deriving DecidableEq

/-- Scan loop of `get_next_elem` from node_text.c: walks the remaining
characters with the running index `i`, the `inside_element` flag and the
current `element.start`; returns `(start, stop)` with `-1` sentinels. -/
def get_next_elem_loop (sep : CharCategory) :
    List CharInfo → ℤ → Bool → ℤ → ℤ × ℤ
  | [], _, _, start => (start, -1)
  | c :: rest, i, inside, start =>
    if c.category = sep then
      if inside then (start, i)
      else get_next_elem_loop sep rest (i+1) false start
    else
      if inside then get_next_elem_loop sep rest (i+1) true start
      else get_next_elem_loop sep rest (i+1) true i

/-- `get_next_elem` from node_text.c: next run of non-separator characters at
or after `last.stop`; a missing end is replaced by the character count. -/
def get_next_elem (chars : List CharInfo) (last : ElementInfo)
    (sep : CharCategory) : ElementInfo :=
  let r := get_next_elem_loop sep (chars.drop last.stop.toNat) last.stop false (-1)
  { start := r.1, stop := if r.2 = -1 then (chars.length : ℤ) else r.2 }

/-- Iteration of `get_nb_elems_separator` from node_text.c. The C `for (;;)`
loop terminates because each found element strictly advances `elem.end`; the
fuel `chars.length + 1` bounds that iteration count. -/
def get_nb_elems_separator_loop (chars : List CharInfo) (sep : CharCategory) :
    ℕ → ElementInfo → ℕ
  | 0, _ => 0
  | fuel+1, elem =>
    let e := get_next_elem chars elem sep
    if e.start = -1 then 0 else 1 + get_nb_elems_separator_loop chars sep fuel e

/-- `get_nb_elems_separator` from node_text.c. -/
def get_nb_elems_separator (chars : List CharInfo) (sep : CharCategory) : ℕ :=
  get_nb_elems_separator_loop chars sep (chars.length + 1) ⟨0, 0⟩

/-- `get_nb_words` from node_text.c. -/
def get_nb_words (chars : List CharInfo) : ℕ :=
  get_nb_elems_separator chars .space

/-- `get_nb_lines` from node_text.c. -/
def get_nb_lines (chars : List CharInfo) : ℕ :=
  get_nb_elems_separator chars .linebreak

/-- `get_nb_text` from node_text.c. -/
def get_nb_text (_chars : List CharInfo) : ℕ := 1

/-- `get_nb_elems` from node_text.c: element count for a text-effect target. -/
def get_nb_elems (chars : List CharInfo) : TextEffectTarget → ℕ
  | .char => get_nb_chars chars
  | .char_nospace => get_nb_chars_no_space chars
  | .word => get_nb_words chars
  | .line => get_nb_lines chars
  | .text => get_nb_text chars

/-- The character list the built-in backend produces for the text
`"ab cd ef"`: 8 entries (spaces included), every category left at `NONE`. -/
def c1_chars : List CharInfo :=
  (ngli_text_set_string_builtin (fun _ => []) 3 9 16 "ab cd ef".toList).chars

/-- The character list for `"ab cd ef"` as the spec's data model intends it:
one entry per character with the two spaces carrying the `SPACE` category. -/
def c1_spec_chars : List CharInfo :=
  "ab cd ef".toList.map (fun c =>
    { x := 0, y := 0, w := 0, h := 0,
      category := if c = ' ' then CharCategory.space else CharCategory.none,
      atlas_uvcoords := [] })

/-! ## Text effects: per-frame application (node_text.c) -/

/-- 4-component float vector. -/
abbrev V4 : Type := ℚ × ℚ × ℚ × ℚ

/-- 4×4 float matrix. -/
abbrev Mat4 : Type := Matrix (Fin 4) (Fin 4) ℚ

/-- Modelled from the spec: `NGLI_LINEAR_INTERP(x0,x1,x)` from math_utils.h
(not in the provided source set), the local interpolation fraction
`(x - x0) / (x1 - x0)`. -/
def NGLI_LINEAR_INTERP (x0 x1 x : ℚ) : ℚ := (x - x0) / (x1 - x0)

/-- `struct chr_data` from node_text.c: the per-character effect-driven
properties. -/
structure ChrData where
  transform : Mat4
  color : V4
  alpha : ℚ
  stroke_width : ℚ
  stroke_color : V4
  glow_width : ℚ
  glow_color : V4
  blur : ℚ

instance : Inhabited ChrData :=
  ⟨⟨1, (0,0,0,0), 0, 0, (0,0,0,0), 0, (0,0,0,0), 0⟩⟩

/-- `struct texteffect_priv` from node_texteffect.c, restricted to the fields
read by the Text node's effect application. The optional driving nodes
(float-, vec4- and transform-valued) are external collaborators evaluated at
a time; they are embedded as optional functions of the time. A transform
chain evaluates to the list of matrices found walking the chain from the
evaluated root node down to the terminal identity node. -/
structure TextEffectPriv where
  start_time : ℚ
  end_time : ℚ
  target : TextEffectTarget
  transform_chain : Option (ℚ → List Mat4)
  color_node : Option (ℚ → V4)
  alpha_node : Option (ℚ → ℚ)
  stroke_width_node : Option (ℚ → ℚ)
  stroke_color_node : Option (ℚ → V4)
  glow_width_node : Option (ℚ → ℚ)
  glow_color_node : Option (ℚ → V4)
  blur_node : Option (ℚ → ℚ)
  start_pos_node : Option (ℚ → ℚ)
  end_pos_node : Option (ℚ → ℚ)
  overlap_node : Option (ℚ → ℚ)

instance : Inhabited TextEffectPriv :=
  ⟨⟨0, 0, .text, none, none, none, none, none, none, none, none, none, none, none⟩⟩

/-- `set_f32_from_node` from node_text.c: a missing node leaves `dst`
untouched, otherwise the node is updated at `t` and its scalar copied. -/
def set_f32_from_node (dst : ℚ) (node : Option (ℚ → ℚ)) (t : ℚ) : ℚ :=
  match node with
  | none => dst
  | some f => f t

/-- `set_vec4_from_node` from node_text.c. -/
def set_vec4_from_node (dst : V4) (node : Option (ℚ → V4)) (t : ℚ) : V4 :=
  match node with
  | none => dst
  | some f => f t

/-- `set_transform_from_node` from node_text.c: starting from the identity,
walk the evaluated transform chain accumulating `matrix := matrix × node.matrix`
(`ngli_mat4_mul` is modelled from the spec as 4×4 matrix product). -/
def set_transform_from_node (dst : Mat4) (node : Option (ℚ → List Mat4)) (t : ℚ) : Mat4 :=
  match node with
  | none => dst
  | some chain => (chain t).foldl (· * ·) 1

/-- `update_character_data` from node_text.c: write every effect-driven
property of character `c` at local time `t`, each property only when its
driving node exists. -/
def update_character_data (working : List ChrData) (effect : TextEffectPriv)
    (c : ℕ) (t : ℚ) : List ChrData :=
  let cur := working.getD c default
  working.set c
    { transform := set_transform_from_node cur.transform effect.transform_chain t,
      color := set_vec4_from_node cur.color effect.color_node t,
      alpha := set_f32_from_node cur.alpha effect.alpha_node t,
      stroke_width := set_f32_from_node cur.stroke_width effect.stroke_width_node t,
      stroke_color := set_vec4_from_node cur.stroke_color effect.stroke_color_node t,
      glow_width := set_f32_from_node cur.glow_width effect.glow_width_node t,
      glow_color := set_vec4_from_node cur.glow_color effect.glow_color_node t,
      blur := set_f32_from_node cur.blur effect.blur_node t }

/-- `struct text_priv` from node_text.c, restricted to the fields read by
`apply_effects`: character list, default and working effect-data buffers,
the configured effects and the per-effect element counts/positions. -/
structure TextPriv where
  chars : List CharInfo
  chars_data_default : List ChrData
  chars_data : List ChrData
  effects : List TextEffectPriv
  element_counts : List ℕ
  element_positions : List (List ℕ)

/-- `reset_chars_data_to_defaults` from node_text.c: copy the default buffer
over the working buffer. -/
def reset_chars_data_to_defaults (s : TextPriv) : TextPriv :=
  { s with chars_data := s.chars_data_default }

/-- `struct target_range` from node_text.c. `stop_chr` embeds the C field
`end_chr`. -/
structure TargetRange where
  start_chr : ℤ
  stop_chr : ℤ
  overlap : ℚ

/-- `set_target_range` from node_text.c: resolve `start_pos`/`end_pos`/
`overlap` (defaults 0/1/0) into a clamped, rounded character index range
(`lrintf` is embedded as rounding to the nearest integer). -/
def set_target_range (s : TextPriv) (effect : TextEffectPriv) (t : ℚ) : TargetRange :=
  let start_pos := set_f32_from_node 0 effect.start_pos_node t
  let end_pos := set_f32_from_node 1 effect.end_pos_node t
  let ovl := set_f32_from_node 0 effect.overlap_node t
  let text_nbchr : ℤ := s.chars.length
  { start_chr := max (round ((text_nbchr : ℚ) * start_pos)) 0,
    stop_chr := min (round ((text_nbchr : ℚ) * end_pos)) text_nbchr,
    overlap := ovl }

/-- The character indexes `[a, b)` of a C `for (int c = a; c < b; c++)` loop,
as naturals (`a ≥ 0` at every use, coming from `set_target_range`). -/
def idxRange (a b : ℤ) : List ℕ :=
  (List.range (b - a).toNat).map (fun k => a.toNat + k)

/-- `apply_effects_char` from node_text.c. -/
def apply_effects_char (s : TextPriv) (rng : TargetRange) (effect_t : ℚ)
    (effect_id : ℕ) : TextPriv :=
  let effect := s.effects.getD effect_id default
  let text_nbchr : ℤ := s.element_counts.getD effect_id 0
  let target_duration := (text_nbchr : ℚ) - rng.overlap * ((text_nbchr : ℚ) - 1)
  let target_timescale := (1 - rng.overlap) / target_duration
  let working := (idxRange rng.start_chr rng.stop_chr).foldl
    (fun working c =>
      let c_pos := (s.element_positions.getD effect_id []).getD c 0
      let t_prv := target_timescale * (c_pos : ℚ)
      let t_nxt := t_prv + 1 / target_duration
      let target_t := NGLI_LINEAR_INTERP t_prv t_nxt effect_t
      update_character_data working effect c target_t)
    s.chars_data
  { s with chars_data := working }

/-- `apply_effects_char_nospace` from node_text.c: like the char target but
`SPACE`-category characters are skipped and do not consume an element
position (`c_id` only advances on non-space characters). -/
def apply_effects_char_nospace (s : TextPriv) (rng : TargetRange) (effect_t : ℚ)
    (effect_id : ℕ) : TextPriv :=
  let effect := s.effects.getD effect_id default
  let text_nbchr : ℤ := s.element_counts.getD effect_id 0
  let target_duration := (text_nbchr : ℚ) - rng.overlap * ((text_nbchr : ℚ) - 1)
  let target_timescale := (1 - rng.overlap) / target_duration
  let r := (idxRange rng.start_chr rng.stop_chr).foldl
    (fun (acc : List ChrData × ℕ) c =>
      let c_info := s.chars.getD c default
      if c_info.category = CharCategory.space then acc
      else
        let c_pos := (s.element_positions.getD effect_id []).getD acc.2 0
        let t_prv := target_timescale * (c_pos : ℚ)
        let t_nxt := t_prv + 1 / target_duration
        let target_t := NGLI_LINEAR_INTERP t_prv t_nxt effect_t
        (update_character_data acc.1 effect c target_t, acc.2 + 1))
    (s.chars_data, rng.start_chr.toNat)
  { s with chars_data := r.1 }

/-- The `for (;;)` loop of `apply_effects_separator` from node_text.c; its
termination is bounded by the fuel (each found element strictly advances
`elem.end`). -/
def apply_effects_separator_loop (s : TextPriv) (rng : TargetRange)
    (effect_t : ℚ) (effect_id : ℕ) (sep : CharCategory)
    (target_duration target_timescale : ℚ) :
    ℕ → ElementInfo → ℕ → List ChrData → List ChrData
  | 0, _, _, working => working
  | fuel+1, elem, elem_id, working =>
    let e := get_next_elem s.chars elem sep
    if e.start = -1 then working
    else
      let pos := (s.element_positions.getD effect_id []).getD elem_id 0
      if e.start < rng.start_chr then
        apply_effects_separator_loop s rng effect_t effect_id sep
          target_duration target_timescale fuel e (elem_id + 1) working
      else
        let working' := (idxRange e.start e.stop).foldl
          (fun working c =>
            let t_prv := target_timescale * (pos : ℚ)
            let t_nxt := t_prv + 1 / target_duration
            let target_t := NGLI_LINEAR_INTERP t_prv t_nxt effect_t
            update_character_data working effect c target_t)
          working
        if rng.stop_chr ≤ e.stop then working'
        else
          apply_effects_separator_loop s rng effect_t effect_id sep
            target_duration target_timescale fuel e (elem_id + 1) working'
where effect := s.effects.getD effect_id default

/-- `apply_effects_separator` from node_text.c. -/
def apply_effects_separator (s : TextPriv) (rng : TargetRange) (effect_t : ℚ)
    (effect_id : ℕ) (sep : CharCategory) : TextPriv :=
  let nb_elems : ℤ := s.element_counts.getD effect_id 0
  let target_duration := (nb_elems : ℚ) - rng.overlap * ((nb_elems : ℚ) - 1)
  let target_timescale := (1 - rng.overlap) / target_duration
  { s with chars_data :=
      (apply_effects_separator_loop s rng effect_t effect_id sep
        target_duration target_timescale (s.chars.length + 1)
        ⟨rng.start_chr, 0⟩ 0 s.chars_data) }

/-- `apply_effects_word` from node_text.c. -/
def apply_effects_word (s : TextPriv) (rng : TargetRange) (effect_t : ℚ)
    (effect_id : ℕ) : TextPriv :=
  apply_effects_separator s rng effect_t effect_id .space

/-- `apply_effects_line` from node_text.c. -/
def apply_effects_line (s : TextPriv) (rng : TargetRange) (effect_t : ℚ)
    (effect_id : ℕ) : TextPriv :=
  apply_effects_separator s rng effect_t effect_id .linebreak

/-- `apply_effects_text` from node_text.c: every character in range gets the
effect at the same `effect_t`. -/
def apply_effects_text (s : TextPriv) (rng : TargetRange) (effect_t : ℚ)
    (effect_id : ℕ) : TextPriv :=
  let effect := s.effects.getD effect_id default
  { s with chars_data :=
      ((idxRange rng.start_chr rng.stop_chr).foldl
        (fun working c => update_character_data working effect c effect_t)
        s.chars_data) }

/-- One iteration of the effects loop in `apply_effects` from node_text.c:
skip when `t < start_time || t > end_time`, otherwise compute
`effect_t = NGLI_LINEAR_INTERP(start_time, end_time, t)`, resolve the target
range and dispatch on the effect's target. -/
def apply_effects_one (s : TextPriv) (t : ℚ) (effect_id : ℕ) : TextPriv :=
  let effect := s.effects.getD effect_id default
  if t < effect.start_time ∨ effect.end_time < t then s
  else
    let effect_t := NGLI_LINEAR_INTERP effect.start_time effect.end_time t
    let rng := set_target_range s effect effect_t
    match effect.target with
    | .char => apply_effects_char s rng effect_t effect_id
    | .char_nospace => apply_effects_char_nospace s rng effect_t effect_id
    | .word => apply_effects_word s rng effect_t effect_id
    | .line => apply_effects_line s rng effect_t effect_id
    | .text => apply_effects_text s rng effect_t effect_id

/-- `apply_effects` from node_text.c: reset the working buffer to the
defaults, then apply every configured effect in declared order. -/
def apply_effects (s : TextPriv) (t : ℚ) : TextPriv :=
  (List.range s.effects.length).foldl
    (fun acc effect_id => apply_effects_one acc t effect_id)
    (reset_chars_data_to_defaults s)

/-- The text effect used for the C5 instances: window `[1, 2]`, whole-text
target, an alpha driver that always evaluates to `1/2`. -/
def c5_effect : TextEffectPriv :=
  { start_time := 1, end_time := 2, target := .text,
    transform_chain := none, color_node := none,
    alpha_node := some (fun _ => 1/2),
    stroke_width_node := none, stroke_color_node := none,
    glow_width_node := none, glow_color_node := none, blur_node := none,
    start_pos_node := none, end_pos_node := none, overlap_node := none }

/-- The per-character defaults built by `init_characters_data` (opaque white
foreground, identity transform, alpha 1, everything else 0). -/
def c5_default_data : ChrData :=
  { transform := 1, color := (1, 1, 1, 1), alpha := 1, stroke_width := 0,
    stroke_color := (0, 0, 0, 0), glow_width := 0, glow_color := (0, 0, 0, 0),
    blur := 0 }

/-- A one-character Text state configured with the single effect above. -/
def c5_state : TextPriv :=
  { chars := [⟨3, 3, 9, 16, .none, []⟩],
    chars_data_default := [c5_default_data],
    chars_data := [c5_default_data],
    effects := [c5_effect],
    element_counts := [1],
    element_positions := [[0]] }

/-! ## Path node (node_path.c)

The query-side arithmetic of the Path node (scans, interpolation, polynomial
evaluation) is entirely rational and is embedded over `ℚ`; the only
irrational operation of the whole pipeline, the Euclidean length used by
`update_arc_distances`, is embedded over `ℝ` and bridged to the rational
distance tables of the concrete path states by dedicated theorems. -/

/-- A 3D float point. -/
abbrev Pt3 : Type := ℚ × ℚ × ℚ

/-- A per-axis cubic polynomial, 4 coefficients ordered highest-degree
first (the `poly_x/y/z` arrays of `struct path_knot`). -/
abbrev Poly4 : Type := ℚ × ℚ × ℚ × ℚ

/-- `interpolate_bezier3_vec3` from node_path.c. -/
def interpolate_bezier3_vec3 (t : ℚ) (p0 p1 p2 p3 : Pt3) : Pt3 :=
  let u := 1 - t
  let f0 := u * u * u
  let f1 := 3 * u * u * t
  let f2 := 3 * u * t * t
  let f3 := t * t * t
  (f0*p0.1 + f1*p1.1 + f2*p2.1 + f3*p3.1,
   f0*p0.2.1 + f1*p1.2.1 + f2*p2.2.1 + f3*p3.2.1,
   f0*p0.2.2 + f1*p1.2.2 + f2*p2.2.2 + f3*p3.2.2)

/-- `poly_bezier3_vec3` from node_path.c: Horner evaluation
`((a·t + b)·t + c)·t + d` per axis. -/
def poly_bezier3_vec3 (t : ℚ) (x y z : Poly4) : Pt3 :=
  (((x.1 * t + x.2.1) * t + x.2.2.1) * t + x.2.2.2,
   ((y.1 * t + y.2.1) * t + y.2.2.1) * t + y.2.2.2,
   ((z.1 * t + z.2.1) * t + z.2.2.1) * t + z.2.2.2)

/-- `get_poly_from_bezier` from node_path.c. -/
def get_poly_from_bezier (p0 p1 p2 p3 : ℚ) : Poly4 :=
  (-p0 + 3*p1 - 3*p2 + p3, 3*p0 - 6*p1 + 3*p2, -3*p0 + 3*p1, p0)

/-- `update_lut` from node_path.c: `precision` samples per segment at
`t = k/precision` (`k = 0..precision-1`), plus one final sample at `t = 1`
for the last segment. Segment `i` uses anchor points `p[i]`, `p[i+1]` and
control points `c[2i]`, `c[2i+1]`. -/
def update_lut (p c : List Pt3) (nb_segments precision : ℕ) : List Pt3 :=
  if nb_segments = 0 then []
  else
    (((List.range nb_segments).map (fun (i : ℕ) =>
      (List.range precision).map (fun (k : ℕ) =>
        interpolate_bezier3_vec3 ((k : ℚ) / (precision : ℚ))
          (p.getD i default) (c.getD (2*i) default)
          (c.getD (2*i+1) default) (p.getD (i+1) default)))).flatten)
    ++ [interpolate_bezier3_vec3 1
          (p.getD (nb_segments - 1) default)
          (c.getD (2*(nb_segments-1)) default)
          (c.getD (2*(nb_segments-1)+1) default)
          (p.getD nb_segments default)]

/-- Modelled from the spec: `ngli_vec3_length` (math_utils, not in the
provided source set), the Euclidean norm. -/
noncomputable def ngli_vec3_length (v : ℝ × ℝ × ℝ) : ℝ :=
  Real.sqrt (v.1^2 + v.2.1^2 + v.2.2^2)

/-- Embedding of a rational LUT point into `ℝ`. -/
def castPt (p : Pt3) : ℝ × ℝ × ℝ := ((p.1 : ℝ), (p.2.1 : ℝ), (p.2.2 : ℝ))

/-- The accumulation loop of `update_arc_distances` from node_path.c. The
source builds each difference vector with swapped component order
`(Δz, Δy, Δx)` (lut[5]-lut[2], lut[4]-lut[1], lut[3]-lut[0]), which does not
change its length. -/
noncomputable def arc_distances_loop : (ℝ × ℝ × ℝ) → ℝ → List (ℝ × ℝ × ℝ) → List ℝ
  | _, _, [] => []
  | prev, total, q :: rest =>
      let vec := (q.2.2 - prev.2.2, q.2.1 - prev.2.1, q.1 - prev.1)
      let total' := total + ngli_vec3_length vec
      total' :: arc_distances_loop q total' rest

/-- The raw cumulative arc distances of `update_arc_distances`: a leading 0,
then one accumulated total per consecutive LUT point pair. -/
noncomputable def arc_distances_raw : List (ℝ × ℝ × ℝ) → List ℝ
  | [] => []
  | p :: rest => 0 :: arc_distances_loop p 0 rest

/-- `update_arc_distances` from node_path.c, producing the normalized
distance array: each raw cumulative distance scaled by `1/total_length`
(scale 0 when the total is 0). -/
noncomputable def update_arc_distances (lut : List (ℝ × ℝ × ℝ)) : List ℝ :=
  let raw := arc_distances_raw lut
  let total := raw.getLast?.getD 0
  let scale := if total = 0 then 0 else 1 / total
  raw.map (· * scale)

/-- The scan loop shared by `get_arc_from_dist` and `get_knot_id` from
node_path.c: starting at index `i` with `fuel` remaining iterations
(`fuel = arc_nb - start`), break on the first value exceeding the target and
return the last index visited before it (`-1` if none). -/
def get_arc_from_dist_loop (vals : List ℚ) (x : ℚ) : ℕ → ℕ → ℤ → ℤ
  | _, 0, ret => ret
  | i, fuel+1, ret =>
    if vals.getD i 0 > x then ret
    else get_arc_from_dist_loop vals x (i+1) fuel (i : ℤ)

/-- `get_arc_from_dist` from node_path.c. -/
def get_arc_from_dist (distances : List ℚ) (distance : ℚ) (arc_nb start : ℕ) : ℤ :=
  get_arc_from_dist_loop distances distance start (arc_nb - start) (-1)

/-- The hint-with-restart idiom of `distance_to_time` from node_path.c: scan
from the cached position, and rescan from 0 when that returns `-1`. -/
def get_arc_from_dist_restart (distances : List ℚ) (distance : ℚ)
    (arc_nb start : ℕ) : ℤ :=
  let r := get_arc_from_dist distances distance arc_nb start
  if r < 0 then get_arc_from_dist distances distance arc_nb 0 else r

/-- `struct path_knot` from node_path.c. The last knot's controls are unset
(`NULL`) and its polynomials stay at their `calloc` zeros. -/
structure PathKnot where
  start_time : ℚ
  start_point : Pt3
  start_control : Option Pt3
  end_control : Option Pt3
  poly_x : Poly4
  poly_y : Poly4
  poly_z : Poly4
deriving DecidableEq

instance : Inhabited PathKnot :=
  ⟨⟨0, (0,0,0), none, none, (0,0,0,0), (0,0,0,0), (0,0,0,0)⟩⟩

/-- `get_knot_id` from node_path.c: the same scan, over the knots'
`start_time` values. -/
def get_knot_id (knots : List PathKnot) (nb_segments start : ℕ) (t : ℚ) : ℤ :=
  get_arc_from_dist_loop (knots.map PathKnot.start_time) t start
    (nb_segments - start) (-1)

/-- The hint-with-restart idiom of `ngli_path_evaluate` for the knot scan. -/
def get_knot_id_restart (knots : List PathKnot) (nb_segments start : ℕ)
    (t : ℚ) : ℤ :=
  let r := get_knot_id knots nb_segments start t
  if r < 0 then get_knot_id knots nb_segments 0 t else r

/-- `struct path_priv` from node_path.c, restricted to the fields read by the
evaluation path. -/
structure PathPriv where
  nb_segments : ℕ
  precision : ℕ
  arc_distances_normalized : List ℚ
  knots : List PathKnot
  current_pos : ℕ
  current_knot : ℕ

/-- `distance_to_time` from node_path.c: find the bracketing arc with the
cached-hint scan (restarting from 0 on failure), clamp it to
`[0, arc_nb - 1]`, then mix `t0 = arc_id/(arc_nb - 1)` and
`t1 = (arc_id+1)/(arc_nb - 1)` by the local ratio
`NGLI_LINEAR_INTERP(d0, d1, distance)`; `arc_nb` is the distance count minus
one. Returns the time and the new `current_pos`. -/
def distance_to_time (s : PathPriv) (distance : ℚ) : ℚ × ℕ :=
  let distances := s.arc_distances_normalized
  let arc_nb : ℤ := (distances.length : ℤ) - 1
  let a := get_arc_from_dist_restart distances distance arc_nb.toNat s.current_pos
  let arc_id : ℤ := min (max a 0) (arc_nb - 1)
  let d0 := distances.getD arc_id.toNat 0
  let d1 := distances.getD (arc_id.toNat + 1) 0
  let frac := NGLI_LINEAR_INTERP d0 d1 distance
  let t0 := (arc_id : ℚ) / ((arc_nb : ℚ) - 1)
  let t1 := ((arc_id : ℚ) + 1) / ((arc_nb : ℚ) - 1)
  (NGLI_MIX t0 t1 frac, arc_id.toNat)

/-- `ngli_path_evaluate` from node_path.c: map the distance to a time, find
the bracketing knot (cached-hint scan with restart, clamped to
`[0, nb_segments - 1]`), compute the local segment ratio from the knot start
times and evaluate the knot's cubic polynomials at it. Returns the point and
the state with both cache hints updated. -/
def ngli_path_evaluate (s : PathPriv) (distance : ℚ) : Pt3 × PathPriv :=
  let r := distance_to_time s distance
  let t := r.1
  let k := get_knot_id_restart s.knots s.nb_segments s.current_knot t
  let knot_id : ℤ := min (max k 0) ((s.nb_segments : ℤ) - 1)
  let kn0 := s.knots.getD knot_id.toNat default
  let kn1 := s.knots.getD (knot_id.toNat + 1) default
  let seg_t := NGLI_LINEAR_INTERP kn0.start_time kn1.start_time t
  (poly_bezier3_vec3 seg_t kn0.poly_x kn0.poly_y kn0.poly_z,
   { s with current_pos := r.2, current_knot := knot_id.toNat })

/-- `init_knots` from node_path.c: first loop resolves each anchor's
normalized arc distance (at LUT index `i·precision`) into a start time via
`distance_to_time` (threading the mutated `current_pos` hint), and records
the anchor and its flanking control points (absent for the last knot);
second loop converts each non-final knot's governing Bezier segment into
polynomial coefficients per axis. -/
def init_knots (s : PathPriv) (points controls : List Pt3) (n : ℕ) : PathPriv :=
  let r := (List.range n).foldl
    (fun (acc : PathPriv × List PathKnot) i =>
      let st := acc.1
      let d := st.arc_distances_normalized.getD (i * st.precision) 0
      let dt := distance_to_time st d
      let knot : PathKnot :=
        { start_time := dt.1,
          start_point := points.getD i default,
          start_control := if i = n - 1 then none else some (controls.getD (2*i) default),
          end_control := if i = n - 1 then none else some (controls.getD (2*i+1) default),
          poly_x := (0,0,0,0), poly_y := (0,0,0,0), poly_z := (0,0,0,0) }
      ({ st with current_pos := dt.2 }, acc.2 ++ [knot]))
    (s, [])
  let knots2 := r.2.mapIdx (fun i kn =>
    if i + 1 < n then
      { kn with
        poly_x := get_poly_from_bezier (points.getD i default).1
          (controls.getD (2*i) default).1 (controls.getD (2*i+1) default).1
          (points.getD (i+1) default).1,
        poly_y := get_poly_from_bezier (points.getD i default).2.1
          (controls.getD (2*i) default).2.1 (controls.getD (2*i+1) default).2.1
          (points.getD (i+1) default).2.1,
        poly_z := get_poly_from_bezier (points.getD i default).2.2
          (controls.getD (2*i) default).2.2 (controls.getD (2*i+1) default).2.2
          (points.getD (i+1) default).2.2 }
    else kn)
  { r.1 with knots := knots2 }

/-- The bezier-mode part of `path_init` from node_path.c, with the normalized
distance table supplied separately (it is computed over `ℝ` by
`update_arc_distances`; the bridge theorems below identify it with the
rational table used here for the concrete paths under study). -/
def mk_path_state (points controls : List Pt3) (precision : ℕ)
    (normalized : List ℚ) : PathPriv :=
  let s0 : PathPriv :=
    { nb_segments := points.length - 1, precision := precision,
      arc_distances_normalized := normalized, knots := [],
      current_pos := 0, current_knot := 0 }
  init_knots s0 points controls points.length

/-- A small bezier path state (the C3 path sampled at precision 2) used to
instantiate the hint-independence theorem. -/
def c7_state : PathPriv :=
  { nb_segments := 1, precision := 2,
    arc_distances_normalized := [0, 1/2, 1],
    knots := [⟨0, (0,0,0), some (1/3,0,0), some (2/3,0,0), (0,0,1,0), (0,0,0,0), (0,0,0,0)⟩,
              ⟨1, (1,0,0), none, none, (0,0,0,0), (0,0,0,0), (0,0,0,0)⟩],
    current_pos := 0, current_knot := 0 }

/-- The anchors of the straight-line path of C3/C4. -/
def c3_points : List Pt3 := [(0,0,0), (1,0,0)]

/-- The collinear controls of the straight-line path of C3/C4. -/
def c3_controls : List Pt3 := [(1/3,0,0), (2/3,0,0)]

/-- The rational normalized-distance table of the straight-line path at
precision `p`. -/
def line_normalized (p : ℕ) : List ℚ :=
  (List.range (p+1)).map (fun (k : ℕ) => (k:ℚ)/p)

/-- The state of the C3 Path node (anchors `(0,0,0)`, `(1,0,0)`, collinear
controls, default precision 64) after `path_init`. -/
def c3_state : PathPriv := mk_path_state c3_points c3_controls 64 (line_normalized 64)

/-- The same path at precision 2 (3 LUT samples), used for C4. -/
def c4_state : PathPriv := mk_path_state c3_points c3_controls 2 (line_normalized 2)

/-- The explicit form of `c3_state`: two knots with start times 0 and 64/63,
the first carrying the polynomial `x(t) = t`, hints `current_pos = 63` (left
by the knot fitting) and `current_knot = 0`. -/
def c3_post : PathPriv :=
  { nb_segments := 1, precision := 64,
    arc_distances_normalized := line_normalized 64,
    knots := [⟨0, (0,0,0), some (1/3,0,0), some (2/3,0,0), (0,0,1,0), (0,0,0,0), (0,0,0,0)⟩,
              ⟨64/63, (1,0,0), none, none, (0,0,0,0), (0,0,0,0), (0,0,0,0)⟩],
    current_pos := 63, current_knot := 0 }

/-- The explicit form of `c4_state`: knot start times 0 and 2, hints
`current_pos = 1`, `current_knot = 0`. -/
def c4_post : PathPriv :=
  { nb_segments := 1, precision := 2,
    arc_distances_normalized := line_normalized 2,
    knots := [⟨0, (0,0,0), some (1/3,0,0), some (2/3,0,0), (0,0,1,0), (0,0,0,0), (0,0,0,0)⟩,
              ⟨2, (1,0,0), none, none, (0,0,0,0), (0,0,0,0), (0,0,0,0)⟩],
    current_pos := 1, current_knot := 0 }

/-! ## Root finder (root_finder.c)

The closed-form solvers call `sqrtf`/`cbrtf`/`acosf`/`cosf`, so this part is
embedded over `ℝ`. The caller's `roots` buffer is embedded as a function
`ℕ → ℝ` written through `Function.update` at the offsets the C pointer
arithmetic addresses. -/

/-- `EPS` from root_finder.c (`1e-13`). -/
noncomputable def EPS : ℝ := 1 / 10^13

/-- `cbrtf`: the real cube root. -/
noncomputable def cbrtf (x : ℝ) : ℝ :=
  if x < 0 then -((-x) ^ ((1:ℝ)/3)) else x ^ ((1:ℝ)/3)

/-- `root_find1` from root_finder.c. -/
noncomputable def root_find1 (roots : ℕ → ℝ) (off : ℕ) (a b : ℝ) : (ℕ → ℝ) × ℕ :=
  if a = 0 then (roots, 0)
  else (Function.update roots off (-b / a), 1)

/-- `root_find2_monic` from root_finder.c. -/
noncomputable def root_find2_monic (roots : ℕ → ℝ) (off : ℕ) (a b : ℝ) :
    (ℕ → ℝ) × ℕ :=
  let offset := -a / 2
  let p := -a*a/4 + b
  let delta := -4 * p
  if |delta| < EPS then (Function.update roots off offset, 1)
  else if delta < 0 then (roots, 0)
  else
    let z := Real.sqrt delta / 2
    (Function.update (Function.update roots off (offset - z)) (off+1) (offset + z), 2)

/-- `root_find3_monic` from root_finder.c (Cardano / trigonometric forms). -/
noncomputable def root_find3_monic (roots : ℕ → ℝ) (off : ℕ) (a b c : ℝ) :
    (ℕ → ℝ) × ℕ :=
  let offset := -a / 3
  let p := b - a*a/3
  let q := a*a*a*2/27 - a*b/3 + c
  let q2 := q / 2
  let p3 := p / 3
  let delta := q2*q2 + p3*p3*p3
  if |p| < EPS ∧ |q| < EPS then (Function.update roots off offset, 1)
  else if |delta| < EPS then
    let u := cbrtf q2
    (Function.update (Function.update roots off (offset + 2*u)) (off+1) (offset - u), 2)
  else if delta > 0 then
    let z := Real.sqrt delta
    let u := cbrtf (-q2 + z)
    let v := cbrtf (-q2 - z)
    (Function.update roots off (u + v + offset), 1)
  else
    let u := 2 * Real.sqrt (-p3)
    let v := Real.arccos (3*q / (2*p) * Real.sqrt (-1 / p3)) / 3
    (Function.update (Function.update (Function.update roots off
        (offset + u * Real.cos v))
        (off+1) (offset + u * Real.cos (v + 2*Real.pi/3)))
        (off+2) (offset + u * Real.cos (v + 4*Real.pi/3)), 3)

/-- The final unconditional-looking offset addition of `root_find4_monic`
(`roots[0] += offset; ...; roots[3] += offset;`), executed sequentially. -/
noncomputable def add_offset4 (buf : ℕ → ℝ) (offset : ℝ) : ℕ → ℝ :=
  let b0 := Function.update buf 0 (buf 0 + offset)
  let b1 := Function.update b0 1 (b0 1 + offset)
  let b2 := Function.update b1 2 (b1 2 + offset)
  Function.update b2 3 (b2 3 + offset)

/-- `root_find4_monic` from root_finder.c: depressed quartic via the cubic
resolvent; note the `return 0` path when `s < 0 || t < 0`, which skips the
offset additions. -/
noncomputable def root_find4_monic (roots : ℕ → ℝ) (a b c d : ℝ) :
    (ℕ → ℝ) × ℕ :=
  let offset := -a / 4
  let p := -3*a*a/8 + b
  let q := a*a*a/8 - a*b/2 + c
  let r := -3*a*a*a*a/256 + a*a*b/16 - a*c/4 + d
  if |r| < EPS then
    let r3 := root_find3_monic (Function.update roots 0 0) 1 0 p q
    (add_offset4 r3.1 offset, 1 + r3.2)
  else
    let r3 := root_find3_monic roots 0 (-p/2) (-r) (p*r/2 - q*q/8)
    let buf := r3.1
    let z := buf 0
    let s := z*z - r
    let t := 2*z - p
    if s < 0 ∨ t < 0 then (buf, 0)
    else
      let u := Real.sqrt s
      let v := Real.sqrt t
      let sv := if q < 0 then -v else v
      let r21 := root_find2_monic buf 0 sv (z - u)
      let r22 := root_find2_monic r21.1 r21.2 (-sv) (z + u)
      (add_offset4 r22.1 offset, r21.2 + r22.2)

/-! ## Lemmas and claim theorems -/

lemma noise_loop_max_amp_mono (s : NoisePriv) (t : ℚ) (hg : 0 ≤ s.gain) :
    ∀ (n : ℕ) (sum ma freq amp : ℚ), 0 ≤ amp →
      ma ≤ (noise_loop s t n (sum, ma, freq, amp)).2.1 := by
  intro n
  induction n with
  | zero => intro sum ma freq amp _; simp [noise_loop]
  | succ k ih =>
      intro sum ma freq amp hamp
      have h1 : ma ≤ ma + amp := by linarith
      have h2 : 0 ≤ amp * s.gain := mul_nonneg hamp hg
      calc ma ≤ ma + amp := h1
        _ ≤ (noise_loop s t k
              (sum + noise s (t * freq) * amp, ma + amp, freq * s.lacunarity, amp * s.gain)).2.1 :=
            ih _ _ _ _ h2
        _ = (noise_loop s t (k+1) (sum, ma, freq, amp)).2.1 := by rfl

/-- C6: (code_bug evidence) the user-facing choice named `cubic` resolves to
`NOISE_CUBIC`, whose interpolation function `curve_cubic` computes
`6t⁵-15t⁴+10t³` — not the `3t²-2t³` its own parameter docstring documents; at
`t = 1/4` the executed function yields `53/512` while the documented formula
yields `5/32`. Symmetrically, the `quintic` choice executes the documented
cubic formula: the two named curves' formulas are swapped. -/
theorem C6_noise_choice_formula_swap :
    ("cubic", NoiseFunc.cubic) ∈ noise_func_choices ∧
    ("quintic", NoiseFunc.quintic) ∈ noise_func_choices ∧
    interp_func_map NoiseFunc.cubic (1/4) = 53/512 ∧
    docstring_cubic_formula (1/4) = 5/32 ∧
    interp_func_map NoiseFunc.cubic (1/4) ≠ docstring_cubic_formula (1/4) ∧
    (∀ t : ℚ, interp_func_map NoiseFunc.cubic t = docstring_quintic_formula t) ∧
    (∀ t : ℚ, interp_func_map NoiseFunc.quintic t = docstring_cubic_formula t) := by
  refine ⟨by simp [noise_func_choices], by simp [noise_func_choices],
    by norm_num [interp_func_map, curve_cubic],
    by norm_num [docstring_cubic_formula],
    by norm_num [interp_func_map, curve_cubic, docstring_cubic_formula],
    fun t => ?_, fun t => ?_⟩
  · simp only [interp_func_map, curve_cubic, docstring_quintic_formula]; ring
  · simp only [interp_func_map, curve_quintic, docstring_cubic_formula]; ring

/-- C8 counterexample: a Noise configuration with `octaves = 2 ≥ 1` (and
`gain = -1`, which no parameter validation forbids) accumulates
`max_amp = 1 + (-1) = 0`, refuting the claim that `max_amp` can be 0 only
when `octaves` is 0. -/
theorem C8_max_amp_zero_counterexample :
    (1 : ℤ) ≤ (⟨2, 2, -1, 0x50726e67, .quintic⟩ : NoisePriv).octaves ∧
    noise_max_amp ⟨2, 2, -1, 0x50726e67, .quintic⟩ 0 = 0 := by
  refine ⟨by norm_num, ?_⟩
  norm_num [noise_max_amp, noise_loop]

/-- C8 amended: for every configuration with `octaves ≥ 1` and `gain ≥ 0`
(rather than arbitrary gain), the `max_amp` accumulated by the fractal-sum
loop of `noise_update` is at least 1, in particular nonzero, so the output
`sum / max_amp` is a division by a nonzero amplitude. -/
theorem C8_max_amp_amended (s : NoisePriv) (t : ℚ)
    (h1 : 1 ≤ s.octaves) (hg : 0 ≤ s.gain) :
    1 ≤ noise_max_amp s t ∧ noise_max_amp s t ≠ 0 := by
  have hmain : 1 ≤ noise_max_amp s t := by
    unfold noise_max_amp
    obtain ⟨m, hm⟩ : ∃ m : ℕ, s.octaves.toNat = m + 1 := ⟨s.octaves.toNat - 1, by omega⟩
    rw [hm]
    show 1 ≤ (noise_loop s t m
        (0 + noise s (t*1)*1, 0+1, 1*s.lacunarity, 1*s.gain)).2.1
    have := noise_loop_max_amp_mono s t hg m
      (0 + noise s (t*1)*1) (0+1) (1*s.lacunarity) (1*s.gain)
      (by simpa using hg)
    simpa using this
  exact ⟨hmain, by linarith⟩

/-- Witness for C8 amended, at a concrete configuration
(`octaves=3, gain=1/2`). -/
theorem C8_max_amp_amended_witness :
    1 ≤ noise_max_amp ⟨3, 2, 1/2, 0x50726e67, .quintic⟩ 5 :=
  (C8_max_amp_amended ⟨3, 2, 1/2, 0x50726e67, .quintic⟩ 5
    (by norm_num) (by norm_num)).1

lemma linesOf_ne_nil (s : List Char) : linesOf s ≠ [] := by
  cases s with
  | nil => simp [linesOf]
  | cons c rest =>
    simp only [linesOf]
    split
    · simp
    · cases h : linesOf rest <;> simp

lemma maxNat_cons (a : ℕ) (t : List ℕ) : maxNat (a :: t) = max a (maxNat t) := rfl

lemma linesOf_length (s : List Char) :
    (linesOf s).length = (s.filter (fun c => c = '\n')).length + 1 := by
  induction s with
  | nil => simp [linesOf]
  | cons c rest ih =>
    by_cases h : c = '\n'
    · simp [linesOf, h, ih]
    · simp only [linesOf, if_neg h]
      rcases h2 : linesOf rest with _ | ⟨l, ls⟩
      · exact absurd h2 (linesOf_ne_nil rest)
      · simp only [List.filter_cons, h]
        simp only [h2, List.length_cons] at ih ⊢
        simpa [h] using ih

lemma gcbd_loop_spec : ∀ (s : List Char) (w h cw n : ℕ), cw ≤ w →
    ∀ l ls, linesOf s = l :: ls →
    get_char_box_dim_loop s w h cw n =
      (max w (maxNat ((cw + l.length) :: ls.map List.length)),
       h + (s.filter (fun c => c = '\n')).length,
       n + (s.filter (fun c => ¬ c = '\n')).length) := by
  intro s
  induction s with
  | nil =>
    intro w h cw n hcw l ls hl
    simp only [linesOf, List.cons.injEq] at hl
    obtain ⟨rfl, rfl⟩ := hl
    simp [get_char_box_dim_loop, maxNat]
    omega
  | cons c rest ih =>
    intro w h cw n hcw l ls hl
    rcases h2 : linesOf rest with _ | ⟨l', ls'⟩
    · exact absurd h2 (linesOf_ne_nil rest)
    by_cases hc : c = '\n'
    · simp only [linesOf, if_pos hc, List.cons.injEq] at hl
      obtain ⟨rfl, rfl⟩ := hl
      simp only [get_char_box_dim_loop, if_pos hc]
      rw [ih w (h+1) 0 n (Nat.zero_le w) l' ls' h2]
      simp only [h2, List.filter_cons, hc, List.map_cons, maxNat_cons,
        List.length_nil, Prod.mk.injEq]
      refine ⟨?_, ?_, ?_⟩ <;> (try simp) <;> omega
    · simp only [linesOf, if_neg hc, h2, List.cons.injEq] at hl
      obtain ⟨rfl, rfl⟩ := hl
      simp only [get_char_box_dim_loop, if_neg hc]
      rw [ih (max w (cw+1)) h (cw+1) (n+1) (Nat.le_max_right w (cw+1)) l' ls' h2]
      simp only [List.filter_cons, hc, List.map_cons, maxNat_cons,
        List.length_cons, Prod.mk.injEq]
      refine ⟨?_, ?_, ?_⟩ <;> (try simp [hc]) <;> omega

lemma get_char_box_dim_spec (s : List Char) :
    get_char_box_dim s =
      (maxNat ((linesOf s).map List.length),
       (linesOf s).length,
       (s.filter (fun c => ¬ c = '\n')).length) := by
  rcases h : linesOf s with _ | ⟨l, ls⟩
  · exact absurd h (linesOf_ne_nil s)
  unfold get_char_box_dim
  rw [gcbd_loop_spec s 0 1 0 0 le_rfl l ls h]
  have h2 := linesOf_length s
  rw [h] at h2
  simp only [List.length_cons] at h2
  simp only [List.map_cons, maxNat_cons, List.length_cons, List.length_nil,
    Prod.mk.injEq]
  refine ⟨by omega, by omega, by omega⟩

lemma set_string_builtin_loop_length (uvfn : Char → List ℚ)
    (padding fontW fontH text_rows : ℤ) :
    ∀ (s : List Char) (px py : ℤ),
    (set_string_builtin_loop uvfn padding fontW fontH text_rows s px py).length
      = (s.filter (fun c => ¬ c = '\n')).length := by
  intro s
  induction s with
  | nil => intro px py; simp [set_string_builtin_loop]
  | cons c rest ih =>
    intro px py
    by_cases hc : c = '\n'
    · simp [set_string_builtin_loop, hc, ih]
    · simp [set_string_builtin_loop, hc, ih]

/-- C9: for every non-empty string laid out by the built-in (no font file)
backend, the character list has one entry per non-newline character, and the
reported block dimensions are `width = cols*FONT_W + 2*padding` and
`height = rows*FONT_H + 2*padding` where `cols` is the longest line's
character count and `rows` the line count. -/
theorem C9_builtin_layout (uvfn : Char → List ℚ) (padding fontW fontH : ℤ)
    (str : List Char) (_hne : str ≠ []) :
    (ngli_text_set_string_builtin uvfn padding fontW fontH str).chars.length
        = (str.filter (fun c => ¬ c = '\n')).length ∧
    (ngli_text_set_string_builtin uvfn padding fontW fontH str).width
        = (maxNat ((linesOf str).map List.length) : ℤ) * fontW + 2 * padding ∧
    (ngli_text_set_string_builtin uvfn padding fontW fontH str).height
        = ((linesOf str).length : ℤ) * fontH + 2 * padding := by
  refine ⟨?_, ?_, ?_⟩ <;>
  simp [ngli_text_set_string_builtin, get_char_box_dim_spec,
    set_string_builtin_loop_length]

/-- Witness for C9, on the string `"ab\ncd e"` with `FONT_W=9`, `FONT_H=16`,
`padding=3`: 6 characters, `width = 4*9+6 = 42`, `height = 2*16+6 = 38`. -/
theorem C9_builtin_layout_witness :
    (ngli_text_set_string_builtin (fun _ => ([] : List ℚ)) 3 9 16 "ab\ncd e".toList).chars.length = 6 ∧
    (ngli_text_set_string_builtin (fun _ => ([] : List ℚ)) 3 9 16 "ab\ncd e".toList).width = 42 ∧
    (ngli_text_set_string_builtin (fun _ => ([] : List ℚ)) 3 9 16 "ab\ncd e".toList).height = 38 := by
  obtain ⟨h1, h2, h3⟩ :=
    C9_builtin_layout (fun _ => ([] : List ℚ)) 3 9 16 "ab\ncd e".toList (by decide)
  refine ⟨?_, ?_, ?_⟩
  · rw [h1]; decide
  · rw [h2]; decide
  · rw [h3]; decide

/-- C1: (code_bug evidence) on the characters actually produced for
`"ab cd ef"` (all categories `NONE`, because no code in the source set ever
assigns a category), `get_nb_elems` yields 1 element for `target=word` and 8
for `target=char_nospace` — not the claimed 3 and 6. Had the spaces carried
the `SPACE` category as the data model intends, the same counting code would
yield exactly 3 and 6. -/
theorem C1_element_counts_diverge :
    get_nb_elems c1_chars .word = 1 ∧
    get_nb_elems c1_chars .char_nospace = 8 ∧
    (∀ c ∈ c1_chars, c.category = CharCategory.none) ∧
    get_nb_elems c1_spec_chars .word = 3 ∧
    get_nb_elems c1_spec_chars .char_nospace = 6 := by decide

lemma apply_effects_one_skip (s : TextPriv) (t : ℚ) (i : ℕ)
    (h : t < (s.effects.getD i default).start_time ∨
         (s.effects.getD i default).end_time < t) :
    apply_effects_one s t i = s := by
  unfold apply_effects_one
  rw [if_pos h]

lemma apply_effects_fold_skip (t : ℚ) : ∀ (l : List ℕ) (acc : TextPriv),
    (∀ e ∈ acc.effects, t < e.start_time ∨ e.end_time < t) →
    (∀ i ∈ l, i < acc.effects.length) →
    l.foldl (fun a i => apply_effects_one a t i) acc = acc := by
  intro l
  induction l with
  | nil => intro acc _ _; rfl
  | cons j rest ih =>
    intro acc hacc hlt
    have hj : j < acc.effects.length := hlt j (List.mem_cons_self j rest)
    have hskip : apply_effects_one acc t j = acc := by
      apply apply_effects_one_skip
      have hg : acc.effects.getD j default = acc.effects[j] :=
        List.getD_eq_getElem acc.effects default hj
      exact hg ▸ hacc _ (List.getElem_mem hj)
    rw [List.foldl_cons, hskip]
    exact ih acc hacc (fun i hi => hlt i (List.mem_cons_of_mem j hi))

/-- C5 amended: with the effect window read as the closed interval
`[start, end]` (the code keeps an effect for `t = end`: the skip condition is
`t < start || t > end`), a frame update at a time outside every configured
effect's window leaves the working per-character effect data equal to the
defaults. -/
theorem C5_outside_window_amended (s : TextPriv) (t : ℚ)
    (h : ∀ e ∈ s.effects, t < e.start_time ∨ e.end_time < t) :
    (apply_effects s t).chars_data = s.chars_data_default := by
  unfold apply_effects
  rw [apply_effects_fold_skip t (List.range s.effects.length)
    (reset_chars_data_to_defaults s) (by simpa [reset_chars_data_to_defaults] using h)
    (fun i hi => by simpa [reset_chars_data_to_defaults] using List.mem_range.mp hi)]
  rfl

/-- C5 counterexample: at `t = 2`, exactly the `end` time of the configured
effect (window `[1,2]`, claimed exclusive at `end`), the update still applies
the effect: the working alpha of character 0 becomes `1/2`, different from
its default `1` — refuting the claim that the effect data equals the defaults
for every `t ≥ end`. -/
theorem C5_end_time_counterexample :
    ((apply_effects c5_state 2).chars_data.getD 0 default).alpha = 1/2 ∧
    (c5_state.chars_data_default.getD 0 default).alpha = 1 ∧
    ((1 : ℚ)/2 ≠ 1) := by
  refine ⟨?_, by norm_num [c5_state, c5_default_data], by norm_num⟩
  norm_num [apply_effects, reset_chars_data_to_defaults, c5_state, c5_effect,
    apply_effects_one, set_target_range, set_f32_from_node, apply_effects_text,
    idxRange, NGLI_LINEAR_INTERP, update_character_data, c5_default_data,
    List.range_succ, List.range_zero, List.getElem?_cons_zero, Option.getD_some,
    List.getD_cons_zero, List.set_cons_zero, round_zero, round_one]

/-- Witness for C5 amended, at `t = 0 < start = 1` on the same state. -/
theorem C5_outside_window_amended_witness :
    (apply_effects c5_state 0).chars_data = c5_state.chars_data_default := by
  apply C5_outside_window_amended
  intro e he
  simp only [c5_state, List.mem_singleton] at he
  subst he
  left
  norm_num [c5_effect]

lemma gafd_loop_run (vals : List ℚ) (x : ℚ) :
    ∀ (fuel i : ℕ) (ret : ℤ),
      (∀ k, i ≤ k → k < i + fuel → ¬ (vals.getD k 0 > x)) →
      get_arc_from_dist_loop vals x i fuel ret
        = if fuel = 0 then ret else ((i + fuel - 1 : ℕ) : ℤ) := by
  intro fuel
  induction fuel with
  | zero => intro i ret _; simp [get_arc_from_dist_loop]
  | succ f ih =>
    intro i ret h
    have hc : ¬ (vals.getD i 0 > x) := h i le_rfl (by omega)
    simp only [get_arc_from_dist_loop, if_neg hc]
    rw [ih (i+1) i (fun k hk1 hk2 => h k (by omega) (by omega))]
    rcases Nat.eq_zero_or_pos f with hf | hf
    · subst hf; simp
    · rw [if_neg (by omega), if_neg (by omega)]
      congr 1
      omega

lemma gafd_loop_first (vals : List ℚ) (x : ℚ) :
    ∀ (fuel i : ℕ) (ret : ℤ) (j : ℕ), i ≤ j → j < i + fuel →
      (∀ k, i ≤ k → k < j → ¬ (vals.getD k 0 > x)) →
      vals.getD j 0 > x →
      get_arc_from_dist_loop vals x i fuel ret
        = if j = i then ret else ((j - 1 : ℕ) : ℤ) := by
  intro fuel
  induction fuel with
  | zero => intro i ret j h1 h2 _ _; exact absurd h2 (by omega)
  | succ f ih =>
    intro i ret j h1 h2 h3 hPj
    by_cases hji : j = i
    · subst hji
      simp only [get_arc_from_dist_loop, if_pos hPj]
      simp
    · have hc : ¬ (vals.getD i 0 > x) := h3 i le_rfl (by omega)
      simp only [get_arc_from_dist_loop, if_neg hc]
      rw [ih (i+1) i j (by omega) (by omega) (fun k hk1 hk2 => h3 k (by omega) hk2) hPj]
      by_cases hji1 : j = i+1
      · rw [if_pos hji1, if_neg hji]
        omega
      · rw [if_neg hji1, if_neg hji]

lemma get_arc_from_dist_restart_eq (vals : List ℚ) (x : ℚ) (n : ℕ)
    (hmono : ∀ i j, i ≤ j → j < n → vals.getD i 0 ≤ vals.getD j 0) (start : ℕ) :
    get_arc_from_dist_restart vals x n start = get_arc_from_dist vals x n 0 := by
  unfold get_arc_from_dist_restart
  by_cases hr : get_arc_from_dist vals x n start < 0
  · rw [if_pos hr]
  · rw [if_neg hr]
    by_cases hex : ∃ j, j < n ∧ vals.getD j 0 > x
    · have hspec := Nat.find_spec hex
      set j0 := Nat.find hex with hj0def
      have hmin : ∀ m, m < j0 → ¬ (vals.getD m 0 > x) := by
        intro m hm hPm
        exact Nat.find_min hex hm ⟨by omega, hPm⟩
      by_cases hs : start < j0
      · have e1 : get_arc_from_dist vals x n start = ((j0 - 1 : ℕ) : ℤ) := by
          unfold get_arc_from_dist
          rw [gafd_loop_first vals x (n - start) start (-1) j0 (by omega) (by omega)
            (fun k _ hk2 => hmin k hk2) hspec.2]
          rw [if_neg (by omega)]
        have e0 : get_arc_from_dist vals x n 0 = ((j0 - 1 : ℕ) : ℤ) := by
          unfold get_arc_from_dist
          rw [gafd_loop_first vals x (n - 0) 0 (-1) j0 (by omega) (by omega)
            (fun k _ hk2 => hmin k hk2) hspec.2]
          rw [if_neg (by omega)]
        rw [e1, e0]
      · exfalso
        apply hr
        unfold get_arc_from_dist
        by_cases hsn : start < n
        · have hPs : vals.getD start 0 > x :=
            lt_of_lt_of_le hspec.2 (hmono j0 start (by omega) hsn)
          obtain ⟨f, hf⟩ : ∃ f, n - start = f + 1 := ⟨n - start - 1, by omega⟩
          rw [hf]
          simp only [get_arc_from_dist_loop, if_pos hPs]
          norm_num
        · rw [show n - start = 0 from by omega]
          simp [get_arc_from_dist_loop]
    · push_neg at hex
      by_cases hsn : start < n
      · have e1 : get_arc_from_dist vals x n start
            = ((start + (n - start) - 1 : ℕ) : ℤ) := by
          unfold get_arc_from_dist
          rw [gafd_loop_run vals x (n - start) start (-1)
            (fun k _ hk2 => not_lt.mpr (hex k (by omega)))]
          rw [if_neg (by omega)]
        have e0 : get_arc_from_dist vals x n 0
            = ((0 + (n - 0) - 1 : ℕ) : ℤ) := by
          unfold get_arc_from_dist
          rw [gafd_loop_run vals x (n - 0) 0 (-1)
            (fun k _ hk2 => not_lt.mpr (hex k (by omega)))]
          rw [if_neg (by omega)]
        rw [e1, e0]
        congr 1
        omega
      · exfalso
        apply hr
        unfold get_arc_from_dist
        rw [show n - start = 0 from by omega]
        simp [get_arc_from_dist_loop]

lemma get_knot_id_restart_eq (knots : List PathKnot) (n : ℕ) (t : ℚ)
    (hmono : ∀ i j, i ≤ j → j < n →
      (knots.map PathKnot.start_time).getD i 0
        ≤ (knots.map PathKnot.start_time).getD j 0) (start : ℕ) :
    get_knot_id_restart knots n start t = get_knot_id knots n 0 t :=
  get_arc_from_dist_restart_eq (knots.map PathKnot.start_time) t n hmono start

lemma sorted_getD_mono (l : List ℚ) (h : l.Sorted (· ≤ ·)) :
    ∀ i j, i ≤ j → j < l.length → l.getD i 0 ≤ l.getD j 0 := by
  intro i j hij hj
  have hi : i < l.length := lt_of_le_of_lt hij hj
  rw [List.getD_eq_getElem l 0 hi, List.getD_eq_getElem l 0 hj]
  have := List.Sorted.rel_get_of_le h (a := ⟨i, hi⟩) (b := ⟨j, hj⟩)
    (Fin.mk_le_mk.mpr hij)
  simpa using this

lemma ngli_path_evaluate_hint_indep (s : PathPriv) (d : ℚ) (cp ck : ℕ)
    (hd : ∀ i j, i ≤ j → j < s.arc_distances_normalized.length →
      s.arc_distances_normalized.getD i 0 ≤ s.arc_distances_normalized.getD j 0)
    (hk : ∀ i j, i ≤ j → j < s.nb_segments →
      (s.knots.map PathKnot.start_time).getD i 0
        ≤ (s.knots.map PathKnot.start_time).getD j 0) :
    (ngli_path_evaluate { s with current_pos := cp, current_knot := ck } d).1 =
    (ngli_path_evaluate { s with current_pos := 0, current_knot := 0 } d).1 := by
  have harc : ∀ st : ℕ,
      get_arc_from_dist_restart s.arc_distances_normalized d
        ((s.arc_distances_normalized.length : ℤ) - 1).toNat st
      = get_arc_from_dist s.arc_distances_normalized d
        ((s.arc_distances_normalized.length : ℤ) - 1).toNat 0 :=
    fun st => get_arc_from_dist_restart_eq _ d _
      (fun i j hij hj => hd i j hij (by omega)) st
  have hknot : ∀ (st : ℕ) (t : ℚ),
      get_knot_id_restart s.knots s.nb_segments st t
        = get_knot_id s.knots s.nb_segments 0 t :=
    fun st t => get_knot_id_restart_eq s.knots s.nb_segments t hk st
  simp only [ngli_path_evaluate, distance_to_time]
  rw [harc cp, harc 0, hknot ck, hknot 0]

/-- C7: the point returned by `ngli_path_evaluate` does not depend on the
cached search hints `current_pos` and `current_knot` left by earlier calls:
for a path state whose normalized distance table and knot start times are
sorted (which holds for every state built by `path_init`, as they are
cumulative distances and times of increasing distances), evaluating the same
distance under any two hint states yields the same point, thanks to the
restart-from-0 fallback of both scans. -/
theorem C7_hint_independence (s : PathPriv) (d : ℚ) (cp ck cp' ck' : ℕ)
    (hd : s.arc_distances_normalized.Sorted (· ≤ ·))
    (hk : (s.knots.map PathKnot.start_time).Sorted (· ≤ ·))
    (hn : s.nb_segments ≤ s.knots.length) :
    (ngli_path_evaluate { s with current_pos := cp, current_knot := ck } d).1 =
    (ngli_path_evaluate { s with current_pos := cp', current_knot := ck' } d).1 := by
  have hd' := sorted_getD_mono _ hd
  have hk' : ∀ i j, i ≤ j → j < s.nb_segments →
      (s.knots.map PathKnot.start_time).getD i 0
        ≤ (s.knots.map PathKnot.start_time).getD j 0 := by
    intro i j hij hj
    exact sorted_getD_mono _ hk i j hij (by simpa using lt_of_lt_of_le hj hn)
  rw [ngli_path_evaluate_hint_indep s d cp ck hd' hk',
    ngli_path_evaluate_hint_indep s d cp' ck' hd' hk']

/-- Witness for C7: stale hints `(5, 7)` versus fresh hints `(0, 0)` on a
concrete state and query distance. -/
theorem C7_hint_independence_witness :
    (ngli_path_evaluate { c7_state with current_pos := 5, current_knot := 7 } (1/3)).1 =
    (ngli_path_evaluate { c7_state with current_pos := 0, current_knot := 0 } (1/3)).1 :=
  C7_hint_independence c7_state (1/3) 5 7 0 0
    (by norm_num [c7_state, List.sorted_cons])
    (by norm_num [c7_state, List.sorted_cons])
    (by norm_num [c7_state])

lemma bezier_line (t : ℚ) :
    interpolate_bezier3_vec3 t (0,0,0) (1/3,0,0) (2/3,0,0) (1,0,0) = (t, 0, 0) := by
  rw [Prod.ext_iff, Prod.ext_iff]
  refine ⟨?_, ?_, ?_⟩ <;> simp only [interpolate_bezier3_vec3] <;> ring

lemma update_lut_line (p : ℕ) (hp : 0 < p) :
    update_lut c3_points c3_controls 1 p
      = (List.range (p+1)).map (fun (k : ℕ) => (((k:ℚ)/p, 0, 0) : Pt3)) := by
  have key : update_lut c3_points c3_controls 1 p
      = (List.range p).map (fun (k : ℕ) =>
          interpolate_bezier3_vec3 ((k:ℚ)/p) (0,0,0) (1/3,0,0) (2/3,0,0) (1,0,0))
        ++ [interpolate_bezier3_vec3 1 (0,0,0) (1/3,0,0) (2/3,0,0) (1,0,0)] := by
    unfold update_lut
    rw [if_neg (by omega)]
    simp only [List.range_succ, List.range_zero, List.nil_append, List.map_cons,
      List.map_nil, List.flatten_cons, List.flatten_nil, List.append_nil]
    rfl
  rw [key, List.range_succ, List.map_append, List.map_cons, List.map_nil]
  congr 1
  · exact List.map_congr_left (fun k _ => bezier_line _)
  · rw [bezier_line 1]
    have hp' : ((p:ℚ)) ≠ 0 := by exact_mod_cast hp.ne'
    rw [div_self hp']

lemma vec3_length_axis (a : ℝ) (ha : 0 ≤ a) : ngli_vec3_length (0, 0, a) = a := by
  unfold ngli_vec3_length
  rw [show (0:ℝ)^2 + (0:ℝ)^2 + a^2 = a^2 by ring, Real.sqrt_sq ha]

lemma arc_loop_line (m : ℝ) (hm : 0 < m) : ∀ (r j : ℕ),
    arc_distances_loop (((j:ℝ)/m, 0, 0)) ((j:ℝ)/m)
      ((List.range' (j+1) r).map (fun (k : ℕ) => (((k:ℝ)/m, 0, 0) : ℝ × ℝ × ℝ)))
    = (List.range' (j+1) r).map (fun (k : ℕ) => (k:ℝ)/m) := by
  intro r
  induction r with
  | zero => intro j; simp [arc_distances_loop]
  | succ q ih =>
    intro j
    rw [List.range'_succ, List.map_cons, List.map_cons]
    show (((j:ℝ)/m + ngli_vec3_length (0 - 0, 0 - 0, ((j+1:ℕ):ℝ)/m - (j:ℝ)/m)) ::
      arc_distances_loop (((j+1:ℕ):ℝ)/m, 0, 0)
        ((j:ℝ)/m + ngli_vec3_length (0 - 0, 0 - 0, ((j+1:ℕ):ℝ)/m - (j:ℝ)/m))
        ((List.range' (j+1+1) q).map (fun (k : ℕ) => (((k:ℝ)/m, 0, 0) : ℝ × ℝ × ℝ))))
      = (((j+1:ℕ):ℝ)/m) :: (List.range' (j+1+1) q).map (fun (k : ℕ) => (k:ℝ)/m)
    have hdiff : ((j+1:ℕ):ℝ)/m - (j:ℝ)/m = 1/m := by
      push_cast
      field_simp
    have hlen : ngli_vec3_length (0 - 0, 0 - 0, ((j+1:ℕ):ℝ)/m - (j:ℝ)/m) = 1/m := by
      rw [show ((0:ℝ) - 0, (0:ℝ) - 0, ((j+1:ℕ):ℝ)/m - (j:ℝ)/m)
          = ((0:ℝ), (0:ℝ), ((j+1:ℕ):ℝ)/m - (j:ℝ)/m) by norm_num, hdiff]
      exact vec3_length_axis (1/m) (by positivity)
    have hsum : (j:ℝ)/m + ngli_vec3_length (0 - 0, 0 - 0, ((j+1:ℕ):ℝ)/m - (j:ℝ)/m)
        = ((j+1:ℕ):ℝ)/m := by
      rw [hlen]
      push_cast
      field_simp
    rw [hsum]
    exact congrArg _ (ih (j+1))

lemma arc_raw_line (m : ℝ) (hm : 0 < m) (p : ℕ) :
    arc_distances_raw ((List.range (p+1)).map (fun (k : ℕ) => (((k:ℝ)/m, 0, 0) : ℝ × ℝ × ℝ)))
      = (List.range (p+1)).map (fun (k : ℕ) => (k:ℝ)/m) := by
  rw [List.range_eq_range', List.range'_succ, List.map_cons, List.map_cons]
  simp only [arc_distances_raw]
  have h0 : ((0:ℕ):ℝ)/m = 0 := by norm_num
  have hloop := arc_loop_line m hm p 0
  rw [h0] at hloop ⊢
  exact congrArg₂ List.cons rfl hloop

lemma update_arc_line (p : ℕ) (hp : 0 < p) :
    update_arc_distances ((List.range (p+1)).map (fun (k : ℕ) => (((k:ℝ)/p, 0, 0) : ℝ × ℝ × ℝ)))
      = (List.range (p+1)).map (fun (k : ℕ) => (k:ℝ)/p) := by
  have hp' : ((p:ℝ)) ≠ 0 := by exact_mod_cast hp.ne'
  simp only [update_arc_distances]
  rw [arc_raw_line p (by exact_mod_cast hp) p]
  have hlast : ((List.range (p+1)).map (fun (k : ℕ) => (k:ℝ)/p)).getLast?.getD 0 = 1 := by
    rw [List.range_succ, List.map_append, List.map_cons, List.map_nil,
      List.getLast?_concat]
    simp [div_self hp']
  rw [hlast]
  rw [if_neg one_ne_zero]
  simp

lemma line_lut_cast (p : ℕ) :
    ((List.range (p+1)).map (fun (k : ℕ) => (((k:ℚ)/p, 0, 0) : Pt3))).map castPt
      = (List.range (p+1)).map (fun (k : ℕ) => (((k:ℝ)/p, 0, 0) : ℝ × ℝ × ℝ)) := by
  rw [List.map_map]
  refine List.map_congr_left (fun k _ => ?_)
  simp [castPt]

lemma line_normalized_cast (p : ℕ) :
    (line_normalized p).map (fun (q : ℚ) => (q:ℝ))
      = (List.range (p+1)).map (fun (k : ℕ) => (k:ℝ)/p) := by
  unfold line_normalized
  rw [List.map_map]
  refine List.map_congr_left (fun k _ => ?_)
  norm_num

/-- Bridge: for the straight-line bezier path `(0,0,0) → (1,0,0)` with
collinear controls, the normalized arc-distance table computed over `ℝ` by
`update_arc_distances` on the LUT built by `update_lut` at precision `p` is
exactly the rational table `[k/p]`. -/
theorem line_distances_from_pipeline (p : ℕ) (hp : 0 < p) :
    update_arc_distances ((update_lut c3_points c3_controls 1 p).map castPt)
      = (line_normalized p).map (fun (q : ℚ) => (q:ℝ)) := by
  rw [update_lut_line p hp, line_lut_cast, update_arc_line p hp,
    line_normalized_cast]

lemma line_normalized_length (p : ℕ) : (line_normalized p).length = p + 1 := by
  simp [line_normalized]

lemma line_normalized_getD (p k : ℕ) (hk : k < p + 1) :
    (line_normalized p).getD k 0 = (k:ℚ)/p := by
  unfold line_normalized
  rw [List.getD_eq_getElem _ _ (by simpa using hk)]
  simp

lemma line_normalized_sorted (p : ℕ) : (line_normalized p).Sorted (· ≤ ·) := by
  unfold line_normalized List.Sorted
  rw [List.pairwise_map]
  refine List.Pairwise.imp ?_ (List.pairwise_lt_range (p+1))
  intro a b hab
  rcases Nat.eq_zero_or_pos p with hp | hp
  · subst hp; norm_num
  · have hp' : (0:ℚ) < p := by exact_mod_cast hp
    rw [div_le_div_iff_of_pos_right hp']
    exact_mod_cast hab.le

lemma scan_stop (vals : List ℚ) (x : ℚ) (n start : ℕ) (hs : start < n)
    (hP : vals.getD start 0 > x) : get_arc_from_dist vals x n start = -1 := by
  unfold get_arc_from_dist
  obtain ⟨f, hf⟩ : ∃ f, n - start = f + 1 := ⟨n - start - 1, by omega⟩
  rw [hf]
  simp only [get_arc_from_dist_loop, if_pos hP]

lemma scan0_first (vals : List ℚ) (x : ℚ) (n j : ℕ) (hj : j < n) (hj0 : 0 < j)
    (hpre : ∀ k, k < j → ¬ (vals.getD k 0 > x)) (hP : vals.getD j 0 > x) :
    get_arc_from_dist vals x n 0 = ((j - 1 : ℕ) : ℤ) := by
  unfold get_arc_from_dist
  rw [gafd_loop_first vals x (n - 0) 0 (-1) j (by omega) (by omega)
    (fun k _ hk => hpre k hk) hP]
  rw [if_neg (by omega)]

lemma scan0_run (vals : List ℚ) (x : ℚ) (n : ℕ) (hn : 0 < n)
    (hall : ∀ k, k < n → ¬ (vals.getD k 0 > x)) :
    get_arc_from_dist vals x n 0 = ((n - 1 : ℕ) : ℤ) := by
  unfold get_arc_from_dist
  rw [gafd_loop_run vals x (n - 0) 0 (-1) (fun k _ hk => hall k (by omega))]
  rw [if_neg (by omega)]
  congr 1
  omega

lemma c3_scan0_zero : get_arc_from_dist (line_normalized 64) 0 64 0 = 0 := by
  have h := scan0_first (line_normalized 64) 0 64 1 (by norm_num) (by norm_num)
    (fun k hk => by
      have : k = 0 := by omega
      subst this
      rw [line_normalized_getD 64 0 (by norm_num)]
      norm_num)
    (by rw [line_normalized_getD 64 1 (by norm_num)]; norm_num)
  simpa using h

lemma c3_scan0_one : get_arc_from_dist (line_normalized 64) 1 64 0 = 63 := by
  have h := scan0_run (line_normalized 64) 1 64 (by norm_num)
    (fun k hk => by
      rw [line_normalized_getD 64 k (by omega)]
      push_cast
      rw [not_lt, div_le_one (by norm_num : (0:ℚ) < 64)]
      exact_mod_cast (by omega : k ≤ 64))
  simpa using h

lemma c3_scan0_half : get_arc_from_dist (line_normalized 64) (1/2) 64 0 = 32 := by
  have h := scan0_first (line_normalized 64) (1/2) 64 33 (by norm_num) (by norm_num)
    (fun k hk => by
      rw [line_normalized_getD 64 k (by omega)]
      push_cast
      rw [not_lt, div_le_iff₀ (by norm_num : (0:ℚ) < 64)]
      calc (k:ℚ) ≤ 32 := by exact_mod_cast (by omega : k ≤ 32)
        _ ≤ 1/2 * 64 := by norm_num)
    (by rw [line_normalized_getD 64 33 (by norm_num)]; norm_num)
  simpa using h

lemma c3_scan63_zero : get_arc_from_dist (line_normalized 64) 0 64 63 = -1 :=
  scan_stop _ 0 64 63 (by norm_num)
    (by rw [line_normalized_getD 64 63 (by norm_num)]; norm_num)

lemma c3_scan63_half : get_arc_from_dist (line_normalized 64) (1/2) 64 63 = -1 :=
  scan_stop _ (1/2) 64 63 (by norm_num)
    (by rw [line_normalized_getD 64 63 (by norm_num)]; norm_num)

lemma c4_scan0_zero : get_arc_from_dist (line_normalized 2) 0 2 0 = 0 := by
  have h := scan0_first (line_normalized 2) 0 2 1 (by norm_num) (by norm_num)
    (fun k hk => by
      have : k = 0 := by omega
      subst this
      rw [line_normalized_getD 2 0 (by norm_num)]
      norm_num)
    (by rw [line_normalized_getD 2 1 (by norm_num)]; norm_num)
  simpa using h

lemma c4_scan0_one : get_arc_from_dist (line_normalized 2) 1 2 0 = 1 := by
  have h := scan0_run (line_normalized 2) 1 2 (by norm_num)
    (fun k hk => by
      rw [line_normalized_getD 2 k (by omega)]
      push_cast
      rw [not_lt, div_le_one (by norm_num : (0:ℚ) < 2)]
      exact_mod_cast (by omega : k ≤ 2))
  simpa using h

lemma c4_scan0_quarter : get_arc_from_dist (line_normalized 2) (1/4) 2 0 = 0 := by
  have h := scan0_first (line_normalized 2) (1/4) 2 1 (by norm_num) (by norm_num)
    (fun k hk => by
      have : k = 0 := by omega
      subst this
      rw [line_normalized_getD 2 0 (by norm_num)]
      norm_num)
    (by rw [line_normalized_getD 2 1 (by norm_num)]; norm_num)
  simpa using h

lemma c4_scan1_quarter : get_arc_from_dist (line_normalized 2) (1/4) 2 1 = -1 :=
  scan_stop _ (1/4) 2 1 (by norm_num)
    (by rw [line_normalized_getD 2 1 (by norm_num)]; norm_num)

lemma dtt_line (s : PathPriv) (p : ℕ) (hp : 0 < p) (d : ℚ) (i : ℕ) (hi : i ≤ p - 1)
    (h1 : s.arc_distances_normalized = line_normalized p)
    (hre : get_arc_from_dist_restart (line_normalized p) d p s.current_pos = (i : ℤ)) :
    distance_to_time s d =
      (NGLI_MIX ((i:ℚ)/((p:ℚ)-1)) (((i:ℚ)+1)/((p:ℚ)-1))
        (NGLI_LINEAR_INTERP ((i:ℚ)/p) (((i+1:ℕ):ℚ)/p) d), i) := by
  have hlen : ((line_normalized p).length : ℤ) - 1 = (p:ℤ) := by
    rw [line_normalized_length]
    push_cast
    ring
  simp only [distance_to_time, h1, hlen]
  rw [Int.toNat_natCast p, hre]
  rw [show ((i:ℤ) ⊔ 0) ⊓ ((p:ℤ) - 1) = (i:ℤ) from by omega]
  rw [Int.toNat_natCast i]
  rw [line_normalized_getD p i (by omega), line_normalized_getD p (i+1) (by omega)]
  push_cast
  norm_num

lemma dtt_c3_zero0 (s : PathPriv) (h1 : s.arc_distances_normalized = line_normalized 64)
    (h2 : s.current_pos = 0) : distance_to_time s 0 = (0, 0) := by
  have hre : get_arc_from_dist_restart (line_normalized 64) 0 64 s.current_pos
      = ((0:ℕ):ℤ) := by
    rw [h2]
    unfold get_arc_from_dist_restart
    rw [c3_scan0_zero]
    norm_num
  rw [dtt_line s 64 (by norm_num) 0 0 (by norm_num) h1 hre]
  norm_num [NGLI_MIX, NGLI_LINEAR_INTERP]

lemma dtt_c3_one0 (s : PathPriv) (h1 : s.arc_distances_normalized = line_normalized 64)
    (h2 : s.current_pos = 0) : distance_to_time s 1 = (64/63, 63) := by
  have hre : get_arc_from_dist_restart (line_normalized 64) 1 64 s.current_pos
      = ((63:ℕ):ℤ) := by
    rw [h2]
    unfold get_arc_from_dist_restart
    rw [c3_scan0_one]
    norm_num
  rw [dtt_line s 64 (by norm_num) 1 63 (by norm_num) h1 hre]
  norm_num [NGLI_MIX, NGLI_LINEAR_INTERP]

lemma dtt_c3_zero63 (s : PathPriv) (h1 : s.arc_distances_normalized = line_normalized 64)
    (h2 : s.current_pos = 63) : distance_to_time s 0 = (0, 0) := by
  have hre : get_arc_from_dist_restart (line_normalized 64) 0 64 s.current_pos
      = ((0:ℕ):ℤ) := by
    rw [h2]
    unfold get_arc_from_dist_restart
    rw [c3_scan63_zero]
    rw [if_pos (by norm_num : (-1:ℤ) < 0)]
    rw [c3_scan0_zero]
    norm_num
  rw [dtt_line s 64 (by norm_num) 0 0 (by norm_num) h1 hre]
  norm_num [NGLI_MIX, NGLI_LINEAR_INTERP]

lemma dtt_c3_half63 (s : PathPriv) (h1 : s.arc_distances_normalized = line_normalized 64)
    (h2 : s.current_pos = 63) : distance_to_time s (1/2) = (32/63, 32) := by
  have hre : get_arc_from_dist_restart (line_normalized 64) (1/2) 64 s.current_pos
      = ((32:ℕ):ℤ) := by
    rw [h2]
    unfold get_arc_from_dist_restart
    rw [c3_scan63_half]
    rw [if_pos (by norm_num : (-1:ℤ) < 0)]
    rw [c3_scan0_half]
    norm_num
  rw [dtt_line s 64 (by norm_num) (1/2) 32 (by norm_num) h1 hre]
  norm_num [NGLI_MIX, NGLI_LINEAR_INTERP]

lemma dtt_c4_zero0 (s : PathPriv) (h1 : s.arc_distances_normalized = line_normalized 2)
    (h2 : s.current_pos = 0) : distance_to_time s 0 = (0, 0) := by
  have hre : get_arc_from_dist_restart (line_normalized 2) 0 2 s.current_pos
      = ((0:ℕ):ℤ) := by
    rw [h2]
    unfold get_arc_from_dist_restart
    rw [c4_scan0_zero]
    norm_num
  rw [dtt_line s 2 (by norm_num) 0 0 (by norm_num) h1 hre]
  norm_num [NGLI_MIX, NGLI_LINEAR_INTERP]

lemma dtt_c4_one0 (s : PathPriv) (h1 : s.arc_distances_normalized = line_normalized 2)
    (h2 : s.current_pos = 0) : distance_to_time s 1 = (2, 1) := by
  have hre : get_arc_from_dist_restart (line_normalized 2) 1 2 s.current_pos
      = ((1:ℕ):ℤ) := by
    rw [h2]
    unfold get_arc_from_dist_restart
    rw [c4_scan0_one]
    norm_num
  rw [dtt_line s 2 (by norm_num) 1 1 (by norm_num) h1 hre]
  norm_num [NGLI_MIX, NGLI_LINEAR_INTERP]

lemma dtt_c4_quarter1 (s : PathPriv) (h1 : s.arc_distances_normalized = line_normalized 2)
    (h2 : s.current_pos = 1) : distance_to_time s (1/4) = (1/2, 0) := by
  have hre : get_arc_from_dist_restart (line_normalized 2) (1/4) 2 s.current_pos
      = ((0:ℕ):ℤ) := by
    rw [h2]
    unfold get_arc_from_dist_restart
    rw [c4_scan1_quarter]
    rw [if_pos (by norm_num : (-1:ℤ) < 0)]
    rw [c4_scan0_quarter]
    norm_num
  rw [dtt_line s 2 (by norm_num) (1/4) 0 (by norm_num) h1 hre]
  norm_num [NGLI_MIX, NGLI_LINEAR_INTERP]

lemma init_knots_two (s : PathPriv) (points controls : List Pt3) :
    init_knots s points controls 2 =
      (let dt0 := distance_to_time s (s.arc_distances_normalized.getD (0 * s.precision) 0)
       let s1 : PathPriv := { s with current_pos := dt0.2 }
       let dt1 := distance_to_time s1 (s1.arc_distances_normalized.getD (1 * s1.precision) 0)
       let s2 : PathPriv := { s1 with current_pos := dt1.2 }
       { s2 with knots := [
          { start_time := dt0.1, start_point := points.getD 0 default,
            start_control := some (controls.getD 0 default),
            end_control := some (controls.getD 1 default),
            poly_x := get_poly_from_bezier (points.getD 0 default).1
              (controls.getD 0 default).1 (controls.getD 1 default).1
              (points.getD 1 default).1,
            poly_y := get_poly_from_bezier (points.getD 0 default).2.1
              (controls.getD 0 default).2.1 (controls.getD 1 default).2.1
              (points.getD 1 default).2.1,
            poly_z := get_poly_from_bezier (points.getD 0 default).2.2
              (controls.getD 0 default).2.2 (controls.getD 1 default).2.2
              (points.getD 1 default).2.2 },
          { start_time := dt1.1, start_point := points.getD 1 default,
            start_control := none, end_control := none,
            poly_x := (0,0,0,0), poly_y := (0,0,0,0), poly_z := (0,0,0,0) } ] }) := rfl

theorem c3_state_eq : c3_state = c3_post := by
  show c3_state =
      { nb_segments := 1, precision := 64,
        arc_distances_normalized := line_normalized 64,
        knots := [⟨0, (0,0,0), some (1/3,0,0), some (2/3,0,0), (0,0,1,0), (0,0,0,0), (0,0,0,0)⟩,
                  ⟨64/63, (1,0,0), none, none, (0,0,0,0), (0,0,0,0), (0,0,0,0)⟩],
        current_pos := 63, current_knot := 0 }
  have h0 : c3_state = init_knots
      { nb_segments := 1, precision := 64,
        arc_distances_normalized := line_normalized 64, knots := [],
        current_pos := 0, current_knot := 0 } c3_points c3_controls 2 := rfl
  rw [h0, init_knots_two]
  have hg0 : (line_normalized 64).getD (0 * 64) 0 = 0 := by
    rw [show (0 * 64 : ℕ) = 0 from rfl, line_normalized_getD 64 0 (by norm_num)]
    norm_num
  simp only [hg0]
  rw [dtt_c3_zero0 _ rfl rfl]
  have hg1 : (line_normalized 64).getD (1 * 64) 0 = 1 := by
    rw [show (1 * 64 : ℕ) = 64 from rfl, line_normalized_getD 64 64 (by norm_num)]
    norm_num
  simp only [hg1]
  rw [dtt_c3_one0 _ rfl rfl]
  simp only [c3_points, c3_controls, List.getD_cons_zero, List.getD_cons_succ]
  norm_num [get_poly_from_bezier]

theorem c4_state_eq : c4_state = c4_post := by
  show c4_state =
      { nb_segments := 1, precision := 2,
        arc_distances_normalized := line_normalized 2,
        knots := [⟨0, (0,0,0), some (1/3,0,0), some (2/3,0,0), (0,0,1,0), (0,0,0,0), (0,0,0,0)⟩,
                  ⟨2, (1,0,0), none, none, (0,0,0,0), (0,0,0,0), (0,0,0,0)⟩],
        current_pos := 1, current_knot := 0 }
  have h0 : c4_state = init_knots
      { nb_segments := 1, precision := 2,
        arc_distances_normalized := line_normalized 2, knots := [],
        current_pos := 0, current_knot := 0 } c3_points c3_controls 2 := rfl
  rw [h0, init_knots_two]
  have hg0 : (line_normalized 2).getD (0 * 2) 0 = 0 := by
    rw [show (0 * 2 : ℕ) = 0 from rfl, line_normalized_getD 2 0 (by norm_num)]
    norm_num
  simp only [hg0]
  rw [dtt_c4_zero0 _ rfl rfl]
  have hg1 : (line_normalized 2).getD (1 * 2) 0 = 1 := by
    rw [show (1 * 2 : ℕ) = 2 from rfl, line_normalized_getD 2 2 (by norm_num)]
    norm_num
  simp only [hg1]
  rw [dtt_c4_one0 _ rfl rfl]
  simp only [c3_points, c3_controls, List.getD_cons_zero, List.getD_cons_succ]
  norm_num [get_poly_from_bezier]

lemma knot_scan_one_seg (knots : List PathKnot) (t : ℚ)
    (h : ¬ ((knots.map PathKnot.start_time).getD 0 0 > t)) :
    get_knot_id knots 1 0 t = 0 := by
  unfold get_knot_id
  rw [show (1 - 0 : ℕ) = 0 + 1 from rfl]
  simp only [get_arc_from_dist_loop, if_neg h]
  norm_num

lemma knot_restart_one_seg (knots : List PathKnot) (t : ℚ)
    (h : ¬ ((knots.map PathKnot.start_time).getD 0 0 > t)) :
    get_knot_id_restart knots 1 0 t = 0 := by
  unfold get_knot_id_restart
  rw [knot_scan_one_seg knots t h]
  norm_num

lemma eval_one_seg (s : PathPriv) (d : ℚ) (t : ℚ) (cp2 : ℕ)
    (hdtt : distance_to_time s d = (t, cp2))
    (hns : s.nb_segments = 1)
    (hck : s.current_knot = 0)
    (hknot0 : ¬ ((s.knots.map PathKnot.start_time).getD 0 0 > t)) :
    ngli_path_evaluate s d =
      (poly_bezier3_vec3
        (NGLI_LINEAR_INTERP (s.knots.getD 0 default).start_time
          (s.knots.getD 1 default).start_time t)
        (s.knots.getD 0 default).poly_x (s.knots.getD 0 default).poly_y
        (s.knots.getD 0 default).poly_z,
       { s with current_pos := cp2, current_knot := 0 }) := by
  simp only [ngli_path_evaluate, hdtt, hns, hck]
  rw [knot_restart_one_seg s.knots t hknot0]
  norm_num

lemma c3_eval_zero :
    ngli_path_evaluate c3_post 0 =
      (((0:ℚ), (0:ℚ), (0:ℚ)), { c3_post with current_pos := 0, current_knot := 0 }) := by
  rw [eval_one_seg c3_post 0 0 0 (dtt_c3_zero63 c3_post rfl rfl) rfl rfl
    (by norm_num [c3_post])]
  norm_num [c3_post, NGLI_LINEAR_INTERP, poly_bezier3_vec3]

lemma c3_eval_one :
    ngli_path_evaluate { c3_post with current_pos := 0, current_knot := 0 } 1 =
      (((1:ℚ), (0:ℚ), (0:ℚ)), { c3_post with current_pos := 63, current_knot := 0 }) := by
  rw [eval_one_seg _ 1 (64/63) 63
    (dtt_c3_one0 { c3_post with current_pos := 0, current_knot := 0 } rfl rfl) rfl rfl
    (by norm_num [c3_post])]
  norm_num [c3_post, NGLI_LINEAR_INTERP, poly_bezier3_vec3]

lemma c3_eval_half :
    (ngli_path_evaluate { c3_post with current_pos := 63, current_knot := 0 } (1/2)).1.1
      = 1/2 := by
  rw [eval_one_seg _ (1/2) (32/63) 32
    (dtt_c3_half63 { c3_post with current_pos := 63, current_knot := 0 } rfl rfl) rfl rfl
    (by norm_num [c3_post])]
  norm_num [c3_post, NGLI_LINEAR_INTERP, poly_bezier3_vec3]

/-- C3: on the Path node built from anchors `(0,0,0)` and `(1,0,0)` in
bezier3 mode with controls `(1/3,0,0)` and `(2/3,0,0)` at the default
precision 64, `ngli_path_evaluate` returns the first anchor at distance 0,
the last anchor at distance 1, and a point with x-coordinate `1/2` at
distance `1/2` (evaluated sequentially on the live state, hints included). -/
theorem C3_line_path_evaluate :
    (ngli_path_evaluate c3_state 0).1 = ((0:ℚ), (0:ℚ), (0:ℚ)) ∧
    (ngli_path_evaluate (ngli_path_evaluate c3_state 0).2 1).1 = ((1:ℚ), (0:ℚ), (0:ℚ)) ∧
    (ngli_path_evaluate (ngli_path_evaluate (ngli_path_evaluate c3_state 0).2 1).2 (1/2)).1.1
      = 1/2 := by
  rw [c3_state_eq, c3_eval_zero]
  refine ⟨rfl, ?_, ?_⟩
  · show (ngli_path_evaluate { c3_post with current_pos := 0, current_knot := 0 } 1).1
      = ((1:ℚ), (0:ℚ), (0:ℚ))
    rw [c3_eval_one]
  · show (ngli_path_evaluate
        (ngli_path_evaluate { c3_post with current_pos := 0, current_knot := 0 } 1).2
        (1/2)).1.1 = 1/2
    rw [c3_eval_one]
    show (ngli_path_evaluate { c3_post with current_pos := 63, current_knot := 0 } (1/2)).1.1
      = 1/2
    exact c3_eval_half

/-- C4 counterexample: on the straight-line path at precision 2 (3 LUT
samples, normalized distances `[0, 1/2, 1]`), querying distance `1/4` finds
the clamped bracketing index 0 and returns time `1/2` — whereas the claim's
formula `mix(i/(nb_samples-1), (i+1)/(nb_samples-1), ratio)` evaluates to
`1/4`: the code divides by `nb_samples - 2`, not `nb_samples - 1`. -/
theorem C4_formula_counterexample :
    (distance_to_time c4_state (1/4)).1 = 1/2 ∧
    c4_state.arc_distances_normalized.length = 3 ∧
    get_arc_from_dist_restart c4_state.arc_distances_normalized (1/4)
      ((c4_state.arc_distances_normalized.length : ℤ) - 1).toNat
      c4_state.current_pos = 0 ∧
    NGLI_MIX ((0:ℚ) / ((3:ℚ) - 1)) (((0:ℚ) + 1) / ((3:ℚ) - 1))
      (NGLI_LINEAR_INTERP (c4_state.arc_distances_normalized.getD 0 0)
        (c4_state.arc_distances_normalized.getD 1 0) (1/4)) = 1/4 ∧
    ((1:ℚ)/2 ≠ 1/4) := by
  refine ⟨?_, ?_, ?_, ?_, by norm_num⟩
  · rw [c4_state_eq, dtt_c4_quarter1 c4_post rfl rfl]
  · rw [c4_state_eq]
    show (line_normalized 2).length = 3
    rw [line_normalized_length]
  · rw [c4_state_eq]
    show get_arc_from_dist_restart (line_normalized 2) (1/4)
      (((line_normalized 2).length : ℤ) - 1).toNat 1 = 0
    rw [line_normalized_length]
    rw [show (((2+1 : ℕ) : ℤ) - 1).toNat = 2 from by decide]
    unfold get_arc_from_dist_restart
    rw [c4_scan1_quarter]
    rw [if_pos (by norm_num : (-1:ℤ) < 0)]
    exact c4_scan0_quarter
  · rw [c4_state_eq]
    show NGLI_MIX ((0:ℚ) / ((3:ℚ) - 1)) (((0:ℚ) + 1) / ((3:ℚ) - 1))
      (NGLI_LINEAR_INTERP ((line_normalized 2).getD 0 0)
        ((line_normalized 2).getD 1 0) (1/4)) = 1/4
    rw [line_normalized_getD 2 0 (by norm_num), line_normalized_getD 2 1 (by norm_num)]
    norm_num [NGLI_MIX, NGLI_LINEAR_INTERP]

/-- C4 amended: for every state and queried distance, `distance_to_time`
returns the linear mix, by ratio `NGLI_LINEAR_INTERP(d0, d1, d)`, of
`t0 = i/(nb_samples - 2)` and `t1 = (i+1)/(nb_samples - 2)` — the divisor is
the LUT sample count minus two (the code's `arc_nb - 1` with
`arc_nb = nb_samples - 1`), not minus one as claimed — where `i` is the
bracketing arc index found by the hinted scan (restarted from 0 on failure)
and clamped to `[0, nb_samples - 3]`. -/
theorem C4_time_formula_amended (s : PathPriv) (d : ℚ) :
    (distance_to_time s d).1 =
      (let n : ℤ := (s.arc_distances_normalized.length : ℤ)
       let i : ℤ := min (max (get_arc_from_dist_restart
           s.arc_distances_normalized d (n - 1).toNat s.current_pos) 0) (n - 2)
       NGLI_MIX ((i:ℚ) / ((s.arc_distances_normalized.length : ℚ) - 2))
         (((i:ℚ) + 1) / ((s.arc_distances_normalized.length : ℚ) - 2))
         (NGLI_LINEAR_INTERP (s.arc_distances_normalized.getD i.toNat 0)
           (s.arc_distances_normalized.getD (i.toNat + 1) 0) d)) := by
  have h1 : ((s.arc_distances_normalized.length : ℤ) - 1) - 1
      = (s.arc_distances_normalized.length : ℤ) - 2 := by ring
  have h2 : ((((s.arc_distances_normalized.length : ℤ) - 1 : ℤ)) : ℚ) - 1
      = (s.arc_distances_normalized.length : ℚ) - 2 := by push_cast; ring
  simp only [distance_to_time, h1, h2]

lemma rpow_third_cube (x : ℝ) (hx : 0 ≤ x) : (x ^ (3:ℕ) : ℝ) ^ ((1:ℝ)/3) = x := by
  rw [← Real.rpow_natCast x 3, ← Real.rpow_mul hx]
  norm_num

lemma cbrtf_neg_64_27 : cbrtf (-(64:ℝ)/27) = -(4/3) := by
  have h : (-(64:ℝ)/27) < 0 := by norm_num
  rw [cbrtf, if_pos h]
  have h2 : (-(-(64:ℝ)/27)) = (4/3 : ℝ) ^ (3:ℕ) := by norm_num
  rw [h2, rpow_third_cube (4/3) (by norm_num)]

/-- Concrete run of the cubic resolvent at the C10 counterexample input:
`p = -16/3`, `q = -128/27`, `delta = 0` exactly, so the `CHECK_ZERO(delta)`
branch fires with `u = cbrt(-64/27) = -4/3`. -/
lemma rf3m_c10 (roots : ℕ → ℝ) :
    root_find3_monic roots 0 (-1) (-5) (-3)
      = (Function.update (Function.update roots 0 (-(7/3))) 1 (5/3), 2) := by
  have e1 : ((-5:ℝ)) - (-1)*(-1)/3 = -(16/3) := by norm_num
  have e2 : ((-1:ℝ))*(-1)*(-1)*2/27 - (-1)*(-5)/3 + (-3) = -(128/27) := by norm_num
  simp only [root_find3_monic, e1, e2]
  rw [if_neg, if_pos]
  · have hq : cbrtf (-(128/27) / 2 : ℝ) = -(4/3) := by
      rw [show (-(128/27) / 2 : ℝ) = (-(64:ℝ)/27) from by norm_num, cbrtf_neg_64_27]
    rw [hq]
    norm_num
  · rw [show (-(128/27) / 2 : ℝ) = (-(64:ℝ)/27) from by norm_num]
    norm_num [EPS]
  · norm_num [EPS]
    intro _
    rw [abs_of_pos (by norm_num : (0:ℝ) < 128/27)]
    norm_num

lemma rf4m_c10_run :
    root_find4_monic (fun _ => (100:ℝ)) 4 8 16 16
      = (Function.update (Function.update (fun _ => (100:ℝ)) 0 (-(7/3))) 1 (5/3), 0) := by
  simp only [root_find4_monic]
  norm_num [EPS]
  rw [rf3m_c10]
  norm_num [Function.update_apply]

lemma rf2m_untouched (roots : ℕ → ℝ) (off : ℕ) (a b : ℝ) :
    (root_find2_monic roots off a b).2 ≤ 2 ∧
    ∀ i, i ≠ off → i ≠ off + 1 → (root_find2_monic roots off a b).1 i = roots i := by
  simp only [root_find2_monic]
  split_ifs with h1 h2 <;>
    exact ⟨by norm_num, fun i hi1 hi2 => by simp [Function.update_apply, hi1, hi2]⟩

lemma rf3m_untouched (roots : ℕ → ℝ) (off : ℕ) (a b c : ℝ) :
    (root_find3_monic roots off a b c).2 ≤ 3 ∧
    ∀ i, i ≠ off → i ≠ off + 1 → i ≠ off + 2 →
      (root_find3_monic roots off a b c).1 i = roots i := by
  simp only [root_find3_monic]
  split_ifs with h1 h2 h3 <;>
    exact ⟨by norm_num, fun i hi1 hi2 hi3 => by simp [Function.update_apply, hi1, hi2, hi3]⟩

lemma add_offset4_untouched (buf : ℕ → ℝ) (o : ℝ) :
    ∀ i, 4 ≤ i → add_offset4 buf o i = buf i := by
  intro i hi
  have h : ¬(i = 3) ∧ ¬(i = 2) ∧ ¬(i = 1) ∧ ¬(i = 0) := by omega
  simp only [add_offset4, Function.update_apply]
  simp [h.1, h.2.1, h.2.2.1, h.2.2.2]

lemma rf4m_bounds (roots : ℕ → ℝ) (a b c d : ℝ) :
    (root_find4_monic roots a b c d).2 ≤ 4 ∧
    ∀ i, 4 ≤ i → (root_find4_monic roots a b c d).1 i = roots i := by
  simp only [root_find4_monic]
  generalize -3*a*a/8 + b = p
  generalize a*a*a/8 - a*b/2 + c = q
  generalize -3*a*a*a*a/256 + a*a*b/16 - a*c/4 + d = r
  generalize -p/2 = a3
  generalize -r = b3
  generalize p*r/2 - q*q/8 = c3
  obtain ⟨hn3, hu3⟩ := rf3m_untouched roots 0 a3 b3 c3
  generalize hbuf : (root_find3_monic roots 0 a3 b3 c3).1 = buf at hu3 ⊢
  generalize Real.sqrt (buf 0 * buf 0 - r) = u
  generalize Real.sqrt (2 * buf 0 - p) = v
  split_ifs with h1 h2 h3
  · refine ⟨?_, ?_⟩
    · have h := (rf3m_untouched (Function.update roots 0 0) 1 0 p q).1
      dsimp only
      omega
    · intro i hi
      dsimp only
      rw [add_offset4_untouched _ _ i hi,
        (rf3m_untouched (Function.update roots 0 0) 1 0 p q).2 i
          (by omega) (by omega) (by omega)]
      rw [Function.update_apply, if_neg (by omega : ¬ i = 0)]
  · exact ⟨by norm_num, fun i hi => hu3 i (by omega) (by omega) (by omega)⟩
  · obtain ⟨hn21, hu21⟩ := rf2m_untouched buf 0 (-v) (buf 0 - u)
    obtain ⟨hn22, hu22⟩ := rf2m_untouched (root_find2_monic buf 0 (-v) (buf 0 - u)).1
      (root_find2_monic buf 0 (-v) (buf 0 - u)).2 (- -v) (buf 0 + u)
    refine ⟨?_, fun i hi => ?_⟩ <;> dsimp only
    · omega
    · rw [add_offset4_untouched _ _ i hi, hu22 i (by omega) (by omega),
        hu21 i (by omega) (by omega), hu3 i (by omega) (by omega) (by omega)]
  · obtain ⟨hn21, hu21⟩ := rf2m_untouched buf 0 v (buf 0 - u)
    obtain ⟨hn22, hu22⟩ := rf2m_untouched (root_find2_monic buf 0 v (buf 0 - u)).1
      (root_find2_monic buf 0 v (buf 0 - u)).2 (-v) (buf 0 + u)
    refine ⟨?_, fun i hi => ?_⟩ <;> dsimp only
    · omega
    · rw [add_offset4_untouched _ _ i hi, hu22 i (by omega) (by omega),
        hu21 i (by omega) (by omega), hu3 i (by omega) (by omega) (by omega)]

/-- C10: counterexample. The claim states the offset `-a/4` is added to
`roots[0..3]` unconditionally, so entries at or beyond the returned count are
never left unchanged. Refuted: on the quartic `x^4+4x^3+8x^2+16x+16` the cubic
resolvent has `delta = 0` exactly; the `CHECK_ZERO(delta)` branch yields
`z = -7/3`, whence `t = 2z - p < 0` and `root_find4_monic` takes the early
`return 0` path: with an all-100 buffer it reports 0 roots, leaves
`roots[2]` and `roots[3]` at 100 (untouched), and never adds the offset `-1`
(the touched entries hold the resolvent roots `-7/3` and `5/3`, not
`-7/3 - 1` and `5/3 - 1`). -/
theorem C10_unconditional_offset_counterexample :
    (root_find4_monic (fun _ => (100:ℝ)) 4 8 16 16).2 = 0 ∧
    (root_find4_monic (fun _ => (100:ℝ)) 4 8 16 16).1 0 = -(7/3) ∧
    (root_find4_monic (fun _ => (100:ℝ)) 4 8 16 16).1 1 = 5/3 ∧
    (root_find4_monic (fun _ => (100:ℝ)) 4 8 16 16).1 2 = 100 ∧
    (root_find4_monic (fun _ => (100:ℝ)) 4 8 16 16).1 3 = 100 := by
  rw [rf4m_c10_run]
  norm_num [Function.update_apply]

/-- C10 (amended): `root_find4_monic` may write any of the first four entries
of the caller's buffer — also entries at or beyond the returned root count, so
every caller must supply at least 4 writable floats — but it never writes
beyond them: the returned count is at most 4 and every entry at index ≥ 4 is
left unchanged. (The offset addition is not unconditional: the `s < 0 || t < 0`
early return skips it, see the counterexample.) -/
theorem C10_buffer_bounds_amended (roots : ℕ → ℝ) (a b c d : ℝ) :
    (root_find4_monic roots a b c d).2 ≤ 4 ∧
    ∀ i, 4 ≤ i → (root_find4_monic roots a b c d).1 i = roots i :=
  rf4m_bounds roots a b c d

/-- Witness for C10 amended: concrete instantiation at the counterexample
input, buffer constantly 100, index 5. -/
theorem C10_buffer_bounds_amended_witness :
    (root_find4_monic (fun _ => (100:ℝ)) 4 8 16 16).2 ≤ 4 ∧
    (root_find4_monic (fun _ => (100:ℝ)) 4 8 16 16).1 5 = 100 :=
  ⟨(C10_buffer_bounds_amended (fun _ => (100:ℝ)) 4 8 16 16).1,
   (C10_buffer_bounds_amended (fun _ => (100:ℝ)) 4 8 16 16).2 5 (by norm_num)⟩

end NodeGL
